import Mathlib

/-
Verification of the manifest/signature machinery of signing_clients/apps.py:
the Section/Manifest/Signature data model, Section.__str__ / Manifest.__str__
serialization, Manifest.parse, file_key ordering, JarExtractor and
make_signed.  Python 2 byte strings are modelled as lists of characters,
digest byte strings as lists of naturals.
-/

namespace SigningClients

/-- Convert a string literal to the byte-character list the embedding works
over.  Python 2 str values are byte strings; we model them as char lists. -/
def cs (s : String) : List Char := s.toList

/-- The characters Python's str.rstrip and the regex class \s treat as
whitespace. -/
def isSpaceChar (c : Char) : Bool :=
  c = ' ' || c = '\t' || c = '\n' || c = '\r' || c = '\x0b' || c = '\x0c'

/-- Python str.rstrip(): drop trailing whitespace. -/
def rstrip (s : List Char) : List Char :=
  (s.reverse.dropWhile fun c => isSpaceChar c).reverse

/-- A greedy \s* at the start of a string: drop leading whitespace. -/
def dropSpaces (s : List Char) : List Char := s.dropWhile fun c => isSpaceChar c

/-- ASCII lower-casing of one character (Python 2 str.lower on bytes). -/
def lowerChar (c : Char) : Char :=
  if 'A' ≤ c ∧ c ≤ 'Z' then Char.ofNat (c.toNat + 32) else c

def lowerStr (s : List Char) : List Char := s.map lowerChar

/-- ASCII upper-casing of one character (Python 2 str.upper on bytes). -/
def upperChar (c : Char) : Char :=
  if 'a' ≤ c ∧ c ≤ 'z' then Char.ofNat (c.toNat - 32) else c

def upperStr (s : List Char) : List Char := s.map upperChar

/-- Byte-wise lexicographic strict order on Python 2 byte strings. -/
def ltStr : List Char → List Char → Bool
  | [], [] => false
  | [], _ :: _ => true
  | _ :: _, [] => false
  | a :: as, b :: bs =>
    if a.toNat < b.toNat then true
    else if b.toNat < a.toNat then false
    else ltStr as bs

def leStr (a b : List Char) : Bool := ! ltStr b a

/-- Stable insertion into a sorted list; with a total `le` this models the
stable sorts Python performs (list.sort(), sorted()). -/
def insertLe (le : α → α → Bool) (x : α) : List α → List α
  | [] => [x]
  | y :: ys => if le x y then x :: y :: ys else y :: insertLe le x ys

def isort (le : α → α → Bool) : List α → List α
  | [] => []
  | x :: xs => insertLe le x (isort le xs)

/-- Python dict lookup over an association list. -/
def assocFind? (k : List Char) : List (List Char × List Nat) → Option (List Nat)
  | [] => none
  | p :: ps => if p.fst = k then some p.snd else assocFind? k ps

def assocFindD (d : List (List Char × List Nat)) (k : List Char) : List Nat :=
  (assocFind? k d).getD []

/-- Python dict assignment d[k] = v: replace in place, or append a new key. -/
def assocInsert (k : List Char) (v : List Nat) :
    List (List Char × List Nat) → List (List Char × List Nat)
  | [] => [(k, v)]
  | p :: ps => if p.fst = k then (k, v) :: ps else p :: assocInsert k v ps

/-- Split a buffer into the physical lines file.readlines() yields: a line
ends at each newline, a final segment without a newline is still a line, and
a trailing newline does not create an extra empty line. -/
def splitLines : List Char → List (List Char)
  | [] => []
  | '\n' :: rest => [] :: splitLines rest
  | c :: rest =>
    match splitLines rest with
    | [] => [[c]]
    | l :: ls => (c :: l) :: ls

/-- Model of Python 2 re.split over the pattern \s* : zero-width matches never
split, so the string splits at each maximal nonempty whitespace run, with an
empty piece for a leading or trailing run.  The Bool is true while a
whitespace run is being skipped. -/
def psAux : Bool → List Char → List Char → List (List Char)
  | false, [], cur => [cur.reverse]
  | false, c :: rest, cur =>
    if isSpaceChar c then cur.reverse :: psAux true rest [] else psAux false rest (c :: cur)
  | true, [], _ => [[]]
  | true, c :: rest, cur =>
    if isSpaceChar c then psAux true rest cur else psAux false rest [c]

def pySplitWs (s : List Char) : List (List Char) := psAux false s []

/-- Model of directory_re.search for the pattern of a backslash or slash at
line end; the anchor also matches just before one trailing newline. -/
def dirSearch (v : List Char) : Bool :=
  let u := if v.getLast? = some '\n' then v.dropLast else v
  match u.getLast? with
  | some c => c = '/' || c = '\\'
  | none => false

/-- The base64 alphabet in index order. -/
def b64Table : List Char :=
  cs ("ABCDEFGHIJKLMNOPQRSTUVWXYZabcdefghijklmnopqrstuvwxyz0123456789+/")

def encChar (n : Nat) : Char := b64Table.getD n 'A'

def idxOfAux (c : Char) : List Char → Nat → Option Nat
  | [], _ => none
  | d :: ds, i => if d = c then some i else idxOfAux c ds (i + 1)

/-- Index of a character in the base64 alphabet; none for padding and for
characters outside the alphabet (which Python 2's decoder skips). -/
def decChar? (c : Char) : Option Nat := idxOfAux c b64Table 0

/-- Model of base64.b64encode over byte lists. -/
def b64encode : List Nat → List Char
  | [] => []
  | [a] => [encChar (a / 4), encChar (a % 4 * 16), '=', '=']
  | [a, b] => [encChar (a / 4), encChar (a % 4 * 16 + b / 16), encChar (b % 16 * 4), '=']
  | a :: b :: c :: rest =>
    encChar (a / 4) :: encChar (a % 4 * 16 + b / 16) :: encChar (b % 16 * 4 + c / 64) ::
      encChar (c % 64) :: b64encode rest

/-- Reassemble bytes from a stream of 6-bit groups, dropping a sub-byte
leftover, as binascii does. -/
def decodeQuads : List Nat → List Nat
  | x1 :: x2 :: x3 :: x4 :: rest =>
    (x1 * 4 + x2 / 16) :: (x2 % 16 * 16 + x3 / 4) :: (x3 % 4 * 64 + x4) :: decodeQuads rest
  | [x1, x2] => [x1 * 4 + x2 / 16]
  | [x1, x2, x3] => [x1 * 4 + x2 / 16, x2 % 16 * 16 + x3 / 4]
  | _ => []

/-- Model of Python 2 base64.b64decode: characters outside the alphabet
(padding included) are skipped, the 6-bit groups are reassembled. -/
def b64decode (s : List Char) : List Nat := decodeQuads (s.filterMap decChar?)

/-- One manifest entry (class Section): entry name, digest-algorithm tuple,
and the mapping from algorithm name to raw digest bytes. -/
structure Section where
  name : List Char
  algos : List (List Char)
  digests : List (List Char × List Nat)
deriving DecidableEq

/-- class Manifest(list): an ordered list of sections plus the
digest_manifests mapping (empty when the attribute was never set). -/
structure Manifest where
  sections : List Section
  digest_manifests : List (List Char × List Nat)
deriving DecidableEq

/-- class Signature(Manifest) adds the omit_individual_sections flag. -/
structure Signature where
  sections : List Section
  digest_manifests : List (List Char × List Nat)
  omit_individual_sections : Bool
deriving DecidableEq

/-- Bounded model of the while loop in Section.__str__ that wraps the Name
line: each pass emits 72 characters, and a newline plus one space before the
remainder.  The fuel only bounds the iteration count (each pass consumes 72
characters, so an initial fuel of the string length is always enough). -/
def wrapWhile : Nat → List Char → List Char
  | 0, _ => []
  | fuel + 1, s =>
    if s = [] then []
    else s.take 72 ++ (if s.drop 72 = [] then [] else '\n' :: ' ' :: wrapWhile fuel (s.drop 72))

def wrapName (s : List Char) : List Char := wrapWhile s.length s

/-- The sorted digest-key order Section.__str__ computes. -/
def digestOrder (sec : Section) : List (List Char) :=
  isort leStr (sec.digests.map Prod.fst)

/-- Section.__str__. -/
def sectionStr (sec : Section) : List Char :=
  wrapName (cs ("Name: ") ++ sec.name) ++ cs ("\n") ++
    cs ("Digest-Algorithms:") ++
    ((digestOrder sec).map fun a => ' ' :: upperStr a).flatten ++ cs ("\n") ++
    ((digestOrder sec).map fun a =>
      upperStr a ++ cs ("-Digest: ") ++ b64encode (assocFindD sec.digests a) ++ cs ("\n")).flatten

/-- Manifest.header for the class name Manifest and version 1.0. -/
def manifestHeader : List Char := cs ("Manifest-Version: 1.0")

/-- Manifest.body: the serialized sections joined by a newline. -/
def manifestBody (secs : List Section) : List Char :=
  List.intercalate (cs ("\n")) (secs.map sectionStr)

/-- Manifest.__str__: header, an empty line, and the body, joined by
newlines. -/
def manifestStr (m : Manifest) : List Char :=
  manifestHeader ++ cs ("\n") ++ cs ("\n") ++ manifestBody m.sections

/-- Signature.digest_manifest: one line per entry, sorted by key (sorted over
the dict items; keys are distinct so this is a sort by algorithm name). -/
def digestManifestLines (dm : List (List Char × List Nat)) : List (List Char) :=
  (isort (fun p q => leStr p.fst q.fst) dm).map fun p =>
    upperStr p.fst ++ cs ("-Digest-Manifest: ") ++ b64encode p.snd

/-- Signature.header: the version line followed by the digest-manifest
lines. -/
def signatureHeader (sig : Signature) : List Char :=
  List.intercalate (cs ("\n"))
    (cs ("Signature-Version: 1.0") :: digestManifestLines sig.digest_manifests)

/-- Signature.__str__. -/
def signatureStr (sig : Signature) : List Char :=
  if sig.omit_individual_sections then signatureHeader sig ++ cs ("\n")
  else signatureHeader sig ++ cs ("\n") ++ cs ("\n") ++ manifestBody sig.sections

/-- The errors the parse loop can raise: the three ParsingError sites, each
carrying exactly the data its message interpolates, and the KeyError a dict
access can raise (carrying the missing key). -/
inductive PErr where
  | lineTooLong (lineno : Nat)
  | continuedNoHeader (lineno : Nat)
  | unrecognizedLine (line : List Char)
  | keyError (key : List Char)
deriving DecidableEq

/-- The in-progress item dict of Manifest.parse; it only ever holds the keys
name, algos and digests. -/
structure PItem where
  name : Option (List Char)
  algos : Option (List (List Char))
  digests : Option (List (List Char × List Nat))
deriving DecidableEq

def emptyItem : PItem := ⟨none, none, none⟩

/-- The parse loop's state: the collected digest_manifests map (the only
kwargs key ever used), the finished sections, the pending item and the
persistent current header. -/
structure PState where
  kwargs : List (List Char × List Nat)
  items : List Section
  item : PItem
  header : List Char
deriving DecidableEq

def initPState : PState := ⟨[], [], emptyItem, []⟩

/-- Case-insensitive match of a known header name against a line prefix,
returning the remainder of the line. -/
def stripHeaderCI : List Char → List Char → Option (List Char)
  | [], rest => some rest
  | _ :: _, [] => none
  | h :: hs, c :: rest => if lowerChar c = h then stripHeaderCI hs rest else none

/-- After the header name, headers_re requires optional whitespace, a colon
and optional whitespace, and captures the rest of the line. -/
def matchHeaderOne (h line : List Char) : Option (List Char) :=
  match stripHeaderCI h line with
  | none => none
  | some rest =>
    match dropSpaces rest with
    | ':' :: r => some (dropSpaces r)
    | _ => none

/-- The recognized header names, in the order the alternation of headers_re
tries them under backtracking (the greedy optional -Manifest tail first). -/
def headerNames : List (List Char) :=
  [cs ("manifest-version"), cs ("signature-version"), cs ("name"),
   cs ("digest-algorithms"), cs ("md5-digest-manifest"), cs ("md5-digest"),
   cs ("sha1-digest-manifest"), cs ("sha1-digest")]

def matchHeaderList : List (List Char) → List Char → Option (List Char × List Char)
  | [], _ => none
  | h :: hs, line =>
    match matchHeaderOne h line with
    | some v => some (h, v)
    | none => matchHeaderList hs line

/-- headers_re.match(line), returning the lower-cased matched header
(group(1).lower()) and the value (group(2)). -/
def matchHeader (line : List Char) : Option (List Char × List Char) :=
  matchHeaderList headerNames line

/-- Python s[-n:] == suf for a suffix test. -/
def endsStr (suf s : List Char) : Bool := decide (List.drop (s.length - suf.length) s = suf)

/-- The header dispatch chain of Manifest.parse.  b64decode is modelled
totally, so this branch itself never fails. -/
def applyHeader (st : PState) (h v : List Char) : PState :=
  let st1 : PState := { st with header := h }
  if endsStr (cs ("-version")) h then st1
  else if endsStr (cs ("-digest-manifest")) h then
    { st1 with kwargs := assocInsert (h.take (h.length - 16)) (b64decode v) st1.kwargs }
  else if h = cs ("name") then
    if dirSearch v then st1 else { st1 with item := { st1.item with name := some v } }
  else if h = cs ("digest-algorithms") then
    { st1 with item := { st1.item with algos := some (pySplitWs (lowerStr v)) } }
  else if endsStr (cs ("-digest")) h then
    { st1 with item := { st1.item with
        digests := some (assocInsert (h.take (h.length - 7)) (b64decode v) (st1.item.digests.getD [])) } }
  else st1

/-- The blank-line branch of the loop: flush the pending section.  The
item.pop of the name key raises KeyError when no name is pending; otherwise
the Section is built with the constructor defaults for missing fields. -/
def flushBlank (st : PState) : Except PErr PState :=
  if st.item = emptyItem then Except.ok { st with header := [] }
  else
    match st.item.name with
    | none => Except.error (PErr.keyError (cs ("name")))
    | some nm =>
      Except.ok { st with
        items := st.items ++
          [⟨nm, st.item.algos.getD [cs ("md5"), cs ("sha1")], st.item.digests.getD []⟩],
        item := emptyItem, header := [] }

/-- The continuation branch: item[header] += rest-of-line.  The only key the
item dict can share with an active header name is the name key; a
continuation under any other active header raises KeyError. -/
def applyCont (st : PState) (lineno : Nat) (line : List Char) : Except PErr PState :=
  if st.header = [] then Except.error (PErr.continuedNoHeader lineno)
  else if st.header = cs ("name") then
    match st.item.name with
    | some v => Except.ok { st with item := { st.item with name := some (v ++ line.drop 1) } }
    | none => Except.error (PErr.keyError st.header)
  else Except.error (PErr.keyError st.header)

/-- One iteration of the parse loop over one raw physical line. -/
def step (st : PState) (lineno : Nat) (raw : List Char) : Except PErr PState :=
  let line := rstrip raw
  if line.length > 72 then Except.error (PErr.lineTooLong lineno)
  else if line = [] then flushBlank st
  else if line.head? = some ' ' then applyCont st lineno line
  else
    match matchHeader line with
    | none => Except.error (PErr.unrecognizedLine line)
    | some hv => Except.ok (applyHeader st hv.fst hv.snd)

def goLines : List (List Char) → Nat → PState → Except PErr PState
  | [], _, st => Except.ok st
  | raw :: rest, n, st =>
    match step st (n + 1) raw with
    | Except.ok st2 => goLines rest (n + 1) st2
    | Except.error e => Except.error e

/-- Manifest.parse: iterate the physical lines with the two synthetic
newlines appended, then build the result (digest_manifests stays empty when
no kwargs were collected, so the two return paths coincide here). -/
def parseManifest (buf : List Char) : Except PErr Manifest :=
  match goLines (splitLines buf ++ [cs ("\n"), cs ("\n")]) 0 initPState with
  | Except.error e => Except.error e
  | Except.ok st => Except.ok ⟨st.items, st.kwargs⟩

/-- One archive entry: the stored name and the content bytes. -/
structure ZEntry where
  filename : List Char
  content : List Char
deriving DecidableEq

/-- posixpath.split: split off the component after the last slash; the head
keeps no trailing slashes unless it consists only of slashes. -/
def osSplit (p : List Char) : List Char × List Char :=
  let tail := (p.reverse.takeWhile fun c => c ≠ '/').reverse
  let head := (p.reverse.dropWhile fun c => c ≠ '/').reverse
  let head2 :=
    if head ≠ [] ∧ ¬ head.all (fun c => c = '/') then
      (head.reverse.dropWhile fun c => c = '/').reverse
    else head
  (head2, tail)

/-- The priority class file_key assigns (1, 2, 5, or the default 4). -/
def filePrio (name : List Char) : Nat :=
  if name = cs ("install.rdf") then 1
  else if name = cs ("chrome.manifest") ∨ name = cs ("icon.png") ∨ name = cs ("icon64.png") then 2
  else if name = cs ("MPL") ∨ name = cs ("GPL") ∨ name = cs ("LGPL") ∨ name = cs ("COPYING") ∨
      name = cs ("LICENSE") ∨ name = cs ("license.txt") then 5
  else 4

/-- file_key: the flat string built by the percent-format of the priority
digit and the two components of os.path.split of the lower-cased name. -/
def file_key (z : ZEntry) : List Char :=
  [Char.ofNat (48 + filePrio z.filename)] ++ cs ("-") ++
    (osSplit (lowerStr z.filename)).fst ++ cs ("-") ++ (osSplit (lowerStr z.filename)).snd

/-- The _digest helper: the MD5 and SHA-1 digests of a byte buffer.  The hash
functions themselves live in hashlib; the development is parameterized over
them. -/
def _digest (md5h sha1h : List Char → List Nat) (data : List Char) :
    List (List Char × List Nat) :=
  [(cs ("md5"), md5h data), (cs ("sha1"), sha1h data)]

/-- The section list JarExtractor.__init__ accumulates: entries sorted by
file_key, directory entries skipped, one Section per file whose algos tuple
is exactly the digest dict's keys. -/
def extractorSections (md5h sha1h : List Char → List Nat) (files : List ZEntry) :
    List Section :=
  ((isort (fun a b => leStr (file_key a) (file_key b)) files).filter
      fun f => ! dirSearch f.filename).map
    fun f => ⟨f.filename, (_digest md5h sha1h f.content).map Prod.fst,
      _digest md5h sha1h f.content⟩

/-- JarExtractor.manifest. -/
def jarManifest (md5h sha1h : List Char → List Nat) (files : List ZEntry) : Manifest :=
  ⟨extractorSections md5h sha1h files, []⟩

/-- JarExtractor._sign: a parallel section holding the digests of the
serialized text of the given section. -/
def _sign (md5h sha1h : List Char → List Nat) (item : Section) : Section :=
  ⟨item.name, (_digest md5h sha1h (sectionStr item)).map Prod.fst,
    _digest md5h sha1h (sectionStr item)⟩

/-- JarExtractor.signatures. -/
def jarSignatures (md5h sha1h : List Char → List Nat) (files : List ZEntry)
    (omitSections : Bool) : Signature :=
  ⟨(extractorSections md5h sha1h files).map (_sign md5h sha1h),
    _digest md5h sha1h (manifestStr (jarManifest md5h sha1h files)), omitSections⟩

/-- The IOError conditions make_signed raises before opening the output. -/
inductive MakeErr where
  | noOutput
  | alreadyExists (path : List Char)
deriving DecidableEq

/-- Python truthiness of an optional path (None and the empty string are
falsy). -/
def truthy : Option (List Char) → Bool
  | none => false
  | some s => ! s.isEmpty

/-- The expression combining the argument with self.outpath by Python or. -/
def pyOr (a b : Option (List Char)) : Option (List Char) := if truthy a then a else b

/-- CPython 2 sorted() over ZipInfo objects falls back to comparing same-type
objects by memory address; with sequential allocation that is the stored
order, modelled here as the identity permutation. -/
def pyAddrSorted (l : List ZEntry) : List ZEntry := l

/-- JarExtractor.make_signed as the pair (writes performed, error raised).
Both error checks run before the output archive is opened, so an error means
an empty write list. -/
def make_signed (md5h sha1h : List Char → List Nat) (files : List ZEntry)
    (omitSections : Bool) (selfOutpath : Option (List Char))
    (fileExists : List Char → Bool) (signature : List Char)
    (outpathArg : Option (List Char)) :
    List (List Char × List Char) × Option MakeErr :=
  match pyOr outpathArg selfOutpath with
  | none => ([], some MakeErr.noOutput)
  | some p =>
    if p.isEmpty then ([], some MakeErr.noOutput)
    else if fileExists p then ([], some (MakeErr.alreadyExists p))
    else
      ((cs ("META-INF/zigbert.rsa"), signature) ::
        ((pyAddrSorted files).map fun f => (f.filename, f.content)) ++
        [(cs ("META-INF/manifest.mf"),
            manifestStr (jarManifest md5h sha1h files)),
          (cs ("META-INF/zigbert.sf"),
            signatureStr (jarSignatures md5h sha1h files omitSections))], none)

/-- Modelled from the spec's words, for comparison with file_key: the
priority key as a tuple of priority class, lower-cased directory component
and lower-cased base name. -/
def specFileKey (z : ZEntry) : Nat × List Char × List Char :=
  (filePrio z.filename, osSplit (lowerStr z.filename))

/-- Lexicographic comparison of the spec's tuple key. -/
def specKeyLe (a b : ZEntry) : Bool :=
  if (specFileKey a).fst ≠ (specFileKey b).fst then
    decide ((specFileKey a).fst < (specFileKey b).fst)
  else if (specFileKey a).snd.fst ≠ (specFileKey b).snd.fst then
    ltStr (specFileKey a).snd.fst (specFileKey b).snd.fst
  else leStr (specFileKey a).snd.snd (specFileKey b).snd.snd

/-- Join lines with one newline after each (the shape of serialized text). -/
def joinNl (ls : List (List Char)) : List Char := (ls.map fun l => l ++ cs ("\n")).flatten

/-- The physical lines the serialized Name entry of a section occupies, for
names short enough to need at most one continuation line. -/
def nameLines (nm : List Char) : List (List Char) :=
  if 6 + nm.length ≤ 72 then [cs ("Name: ") ++ nm]
  else [(cs ("Name: ") ++ nm).take 72, ' ' :: (cs ("Name: ") ++ nm).drop 72]

/-- The physical lines of a serialized section whose digest dict is exactly
the md5 and sha1 the extractor produces. -/
def sectionLinesWF (nm : List Char) (v w : List Nat) : List (List Char) :=
  nameLines nm ++ [cs ("Digest-Algorithms: MD5 SHA1"),
    cs ("MD5-Digest: ") ++ b64encode v, cs ("SHA1-Digest: ") ++ b64encode w]

/-- The physical lines of a serialized section. -/
def sectionLines (s : Section) : List (List Char) := splitLines (sectionStr s)

/-- The physical lines of Manifest.body: sections separated by one blank
line. -/
def bodyLines : List Section → List (List Char)
  | [] => []
  | [s] => sectionLines s
  | s :: ss => sectionLines s ++ ([] : List Char) :: bodyLines ss

/-- Well-formed sections: those the extractor itself produces, namely names
of printable non-whitespace bytes of length at most 137 that are not
directory markers (nor truncate to one at the 66-character wrap point), and
a digest dict holding exactly an md5 and a sha1 digest of plausible size,
with an algos tuple carrying the same two algorithm names. -/
def WFSection (s : Section) : Prop :=
  s.name ≠ [] ∧ s.name.length ≤ 137 ∧ (∀ c ∈ s.name, isSpaceChar c = false) ∧
  dirSearch s.name = false ∧ dirSearch (s.name.take 66) = false ∧
  s.digests.map Prod.fst = [cs ("md5"), cs ("sha1")] ∧
  (∀ p ∈ s.digests, p.snd ≠ [] ∧ p.snd.length ≤ 42 ∧ ∀ x ∈ p.snd, x < 256) ∧
  (∀ a ∈ s.algos, a = cs ("md5") ∨ a = cs ("sha1")) ∧
  cs ("md5") ∈ s.algos ∧ cs ("sha1") ∈ s.algos

instance (s : Section) : Decidable (WFSection s) := by
  unfold WFSection; infer_instance

/-- The section Manifest.parse materializes from a well-formed serialized
section. -/
def parsedOf (s : Section) : Section := ⟨s.name, [cs ("md5"), cs ("sha1")], s.digests⟩

/-- The claim's notion of matching sections: same name, same algorithm set,
same digest bytes. -/
def sectionEquiv (a b : Section) : Prop :=
  a.name = b.name ∧ (∀ x, x ∈ a.algos ↔ x ∈ b.algos) ∧ a.digests = b.digests

/-- The stream of 6-bit groups b64encode emits, used to state the decode
round trip. -/
def enc6 : List Nat → List Nat
  | [] => []
  | [a] => [a / 4, a % 4 * 16]
  | [a, b] => [a / 4, a % 4 * 16 + b / 16, b % 16 * 4]
  | a :: b :: c :: rest =>
    a / 4 :: (a % 4 * 16 + b / 16) :: (b % 16 * 4 + c / 64) :: c % 64 :: enc6 rest

/- ------------------------------------------------------------------ -/
/- Basic lemmas about the string helpers.                              -/
/- ------------------------------------------------------------------ -/

theorem rstrip_eq_self {l : List Char}
    (h : ∀ c, l.getLast? = some c → isSpaceChar c = false) : rstrip l = l := by
  have hdw : List.dropWhile (fun c => isSpaceChar c) l.reverse = l.reverse := by
    cases hl : l.reverse with
    | nil => rfl
    | cons c t =>
      have hc : l.getLast? = some c := by
        rw [← List.head?_reverse, hl]; rfl
      rw [List.dropWhile_cons]
      simp [h c hc]
  unfold rstrip
  rw [hdw, List.reverse_reverse]

theorem rstrip_append {xs ys : List Char} (hne : ys ≠ [])
    (h : ∀ c, ys.getLast? = some c → isSpaceChar c = false) :
    rstrip (xs ++ ys) = xs ++ ys := by
  apply rstrip_eq_self
  intro c hc
  rw [List.getLast?_append] at hc
  cases hys : ys.getLast? with
  | none => exact absurd (List.getLast?_eq_none_iff.mp hys) hne
  | some d =>
    rw [hys] at hc
    simp only [Option.or_some, Option.some.injEq] at hc
    exact hc ▸ h d hys

theorem rstrip_all {l : List Char} (h : ∀ c ∈ l, isSpaceChar c = false) :
    rstrip l = l :=
  rstrip_eq_self fun c hc =>
    h c (List.mem_of_mem_getLast? (Option.mem_def.mpr hc))

theorem dropSpaces_eq_self {l : List Char}
    (h : ∀ c, l.head? = some c → isSpaceChar c = false) : dropSpaces l = l := by
  unfold dropSpaces
  cases l with
  | nil => rfl
  | cons c t =>
    rw [List.dropWhile_cons, h c rfl]
    simp

theorem dropSpaces_all {l : List Char} (h : ∀ c ∈ l, isSpaceChar c = false) :
    dropSpaces l = l :=
  dropSpaces_eq_self fun c hc =>
    h c (List.mem_of_mem_head? (Option.mem_def.mpr hc))

/- ------------------------------------------------------------------ -/
/- Lemmas about splitLines.                                            -/
/- ------------------------------------------------------------------ -/

theorem splitLines_cons_ne {c : Char} {rest : List Char} (hc : c ≠ '\n') :
    splitLines (c :: rest) =
      match splitLines rest with
      | [] => [[c]]
      | l :: ls => (c :: l) :: ls := by
  conv_lhs => rw [splitLines.eq_def]
  split
  · rename_i heq
    simp at heq
  · rename_i heq
    injection heq with h1 h2
    exact absurd h1 hc
  · rename_i heq
    injection heq with h1 h2
    subst h1
    subst h2
    rfl

theorem splitLines_append_newline {l rest : List Char} (h : ('\n') ∉ l) :
    splitLines (l ++ '\n' :: rest) = l :: splitLines rest := by
  induction l with
  | nil => rfl
  | cons c t ih =>
    have hc : c ≠ '\n' := fun e => h (by simp [e])
    have ht : ('\n') ∉ t := fun m => h (List.mem_cons_of_mem _ m)
    rw [List.cons_append, splitLines_cons_ne hc, ih ht]

theorem splitLines_single {l : List Char} (hne : l ≠ []) (h : ('\n') ∉ l) :
    splitLines l = [l] := by
  induction l with
  | nil => exact absurd rfl hne
  | cons c t ih =>
    have hc : c ≠ '\n' := fun e => h (by simp [e])
    have ht : ('\n') ∉ t := fun m => h (List.mem_cons_of_mem _ m)
    rw [splitLines_cons_ne hc]
    cases ht2 : t with
    | nil => rfl
    | cons d u =>
      rw [← ht2, ih (by simp [ht2]) ht]

theorem splitLines_joinNl {ls : List (List Char)} {rest : List Char}
    (h : ∀ l ∈ ls, ('\n') ∉ l) :
    splitLines (joinNl ls ++ rest) = ls ++ splitLines rest := by
  induction ls with
  | nil => rfl
  | cons l t ih =>
    have h1 : ('\n') ∉ l := h l (by simp)
    have h2 : ∀ x ∈ t, ('\n') ∉ x := fun x hx => h x (by simp [hx])
    have hcs : cs ("\n") = ['\n'] := rfl
    show splitLines ((l ++ cs ("\n")) ++ joinNl t ++ rest) = (l :: t) ++ splitLines rest
    rw [List.append_assoc, List.append_assoc, hcs]
    rw [show (['\n'] : List Char) ++ (joinNl t ++ rest) = '\n' :: (joinNl t ++ rest) from rfl]
    rw [splitLines_append_newline h1, ih h2]
    rfl

theorem splitLines_joinNl_nil {ls : List (List Char)}
    (h : ∀ l ∈ ls, ('\n') ∉ l) : splitLines (joinNl ls) = ls := by
  have h0 : splitLines (joinNl ls ++ []) = ls ++ splitLines [] := splitLines_joinNl h
  rw [List.append_nil] at h0
  rw [h0]
  show ls ++ ([] : List (List Char)) = ls
  rw [List.append_nil]

/- ------------------------------------------------------------------ -/
/- Lemmas about the base64 model.                                      -/
/- ------------------------------------------------------------------ -/

theorem encChar_mem (n : Nat) : encChar n ∈ b64Table := by
  unfold encChar
  rcases Nat.lt_or_ge n b64Table.length with h | h
  · rw [List.getD_eq_getElem?_getD, List.getElem?_eq_getElem h]
    exact List.getElem_mem h
  · rw [List.getD_eq_getElem?_getD, List.getElem?_eq_none h]
    decide

theorem b64Table_no_space : ∀ c ∈ b64Table, isSpaceChar c = false := by decide

theorem b64encode_chars : ∀ (v : List Nat), ∀ c ∈ b64encode v, c ∈ b64Table ∨ c = '='
  | [] => by simp [b64encode]
  | [a] => by
    intro c hc
    simp only [b64encode, List.mem_cons, List.not_mem_nil, or_false] at hc
    rcases hc with h | h | h | h
    · exact Or.inl (h ▸ encChar_mem _)
    · exact Or.inl (h ▸ encChar_mem _)
    · exact Or.inr h
    · exact Or.inr h
  | [a, b] => by
    intro c hc
    simp only [b64encode, List.mem_cons, List.not_mem_nil, or_false] at hc
    rcases hc with h | h | h | h
    · exact Or.inl (h ▸ encChar_mem _)
    · exact Or.inl (h ▸ encChar_mem _)
    · exact Or.inl (h ▸ encChar_mem _)
    · exact Or.inr h
  | a :: b :: c :: rest => by
    intro x hx
    simp only [b64encode, List.mem_cons] at hx
    rcases hx with h | h | h | h | h
    · exact Or.inl (h ▸ encChar_mem _)
    · exact Or.inl (h ▸ encChar_mem _)
    · exact Or.inl (h ▸ encChar_mem _)
    · exact Or.inl (h ▸ encChar_mem _)
    · exact b64encode_chars rest x h

theorem b64encode_no_space {v : List Nat} : ∀ c ∈ b64encode v, isSpaceChar c = false := by
  intro c h
  rcases b64encode_chars v c h with h2 | h2
  · exact b64Table_no_space c h2
  · rw [h2]; decide

theorem b64encode_no_newline {v : List Nat} : ('\n') ∉ b64encode v := by
  intro h
  have := b64encode_no_space _ h
  simp [isSpaceChar] at this

theorem b64encode_ne_nil : ∀ {v : List Nat}, v ≠ [] → b64encode v ≠ []
  | [], h => absurd rfl h
  | [a], _ => by
    show [encChar (a / 4), encChar (a % 4 * 16), '=', '='] ≠ []
    exact List.cons_ne_nil _ _
  | [a, b], _ => by
    show [encChar (a / 4), encChar (a % 4 * 16 + b / 16), encChar (b % 16 * 4), '='] ≠ []
    exact List.cons_ne_nil _ _
  | a :: b :: c :: rest, _ => by
    show encChar (a / 4) :: (a % 4 * 16 + b / 16 |> encChar) ::
        (b % 16 * 4 + c / 64 |> encChar) :: encChar (c % 64) :: b64encode rest ≠ []
    exact List.cons_ne_nil _ _

theorem b64encode_length : ∀ v : List Nat, (b64encode v).length = 4 * ((v.length + 2) / 3)
  | [] => rfl
  | [_] => by simp [b64encode]
  | [_, _] => by simp [b64encode]
  | a :: b :: c :: rest => by
    simp only [b64encode, List.length_cons]
    rw [b64encode_length rest]
    omega

theorem decChar?_encChar {n : Nat} (h : n < 64) : decChar? (encChar n) = some n := by
  have H : ∀ i : Fin 64, decChar? (encChar i.val) = some i.val := by decide
  exact H ⟨n, h⟩

theorem filterMap_b64encode : ∀ v : List Nat, (∀ x ∈ v, x < 256) →
    (b64encode v).filterMap decChar? = enc6 v
  | [], _ => rfl
  | [a], h => by
    have ha : a < 256 := h a (by simp)
    simp only [b64encode, enc6, List.filterMap_cons, List.filterMap_nil,
      decChar?_encChar (show a / 4 < 64 by omega),
      decChar?_encChar (show a % 4 * 16 < 64 by omega),
      show decChar? ('=') = none from by decide]
  | [a, b], h => by
    have ha : a < 256 := h a (by simp)
    have hb : b < 256 := h b (by simp)
    simp only [b64encode, enc6, List.filterMap_cons, List.filterMap_nil,
      decChar?_encChar (show a / 4 < 64 by omega),
      decChar?_encChar (show a % 4 * 16 + b / 16 < 64 by omega),
      decChar?_encChar (show b % 16 * 4 < 64 by omega),
      show decChar? ('=') = none from by decide]
  | a :: b :: c :: rest, h => by
    have ha : a < 256 := h a (by simp)
    have hb : b < 256 := h b (by simp)
    have hc : c < 256 := h c (by simp)
    have ih := filterMap_b64encode rest (fun x hx => h x (by simp [hx]))
    simp only [b64encode, enc6, List.filterMap_cons,
      decChar?_encChar (show a / 4 < 64 by omega),
      decChar?_encChar (show a % 4 * 16 + b / 16 < 64 by omega),
      decChar?_encChar (show b % 16 * 4 + c / 64 < 64 by omega),
      decChar?_encChar (show c % 64 < 64 by omega), ih]

theorem decodeQuads_enc6 : ∀ v : List Nat, (∀ x ∈ v, x < 256) → decodeQuads (enc6 v) = v
  | [], _ => rfl
  | [a], _ => by
    simp only [enc6, decodeQuads, List.cons.injEq, and_true]
    omega
  | [a, b], h => by
    have hb : b < 256 := h b (by simp)
    simp only [enc6, decodeQuads, List.cons.injEq, and_true]
    constructor
    · omega
    · omega
  | a :: b :: c :: rest, h => by
    have hb : b < 256 := h b (by simp)
    have hc : c < 256 := h c (by simp)
    have ih := decodeQuads_enc6 rest (fun x hx => h x (by simp [hx]))
    rw [show enc6 (a :: b :: c :: rest) =
        a / 4 :: (a % 4 * 16 + b / 16) :: (b % 16 * 4 + c / 64) :: c % 64 :: enc6 rest
      from rfl]
    rw [show decodeQuads
          (a / 4 :: (a % 4 * 16 + b / 16) :: (b % 16 * 4 + c / 64) :: c % 64 :: enc6 rest) =
        (a / 4 * 4 + (a % 4 * 16 + b / 16) / 16) ::
          ((a % 4 * 16 + b / 16) % 16 * 16 + (b % 16 * 4 + c / 64) / 4) ::
          ((b % 16 * 4 + c / 64) % 4 * 64 + c % 64) :: decodeQuads (enc6 rest)
      from rfl]
    rw [ih]
    have e1 : a / 4 * 4 + (a % 4 * 16 + b / 16) / 16 = a := by omega
    have e2 : (a % 4 * 16 + b / 16) % 16 * 16 + (b % 16 * 4 + c / 64) / 4 = b := by omega
    have e3 : (b % 16 * 4 + c / 64) % 4 * 64 + c % 64 = c := by omega
    rw [e1, e2, e3]

theorem b64_roundtrip {v : List Nat} (h : ∀ x ∈ v, x < 256) :
    b64decode (b64encode v) = v := by
  unfold b64decode
  rw [filterMap_b64encode v h, decodeQuads_enc6 v h]

/- ------------------------------------------------------------------ -/
/- Lemmas about the name-wrapping loop.                                -/
/- ------------------------------------------------------------------ -/

theorem wrapWhile_small {f : Nat} {s : List Char} (hf : 1 ≤ f) (h : s.length ≤ 72) :
    wrapWhile f s = s := by
  cases f with
  | zero => omega
  | succ f2 =>
    unfold wrapWhile
    by_cases hs : s = []
    · simp [hs]
    · rw [if_neg hs]
      have hd : s.drop 72 = [] := List.drop_eq_nil_iff.mpr h
      rw [hd]
      simp [List.take_of_length_le h]

theorem wrapName_small {s : List Char} (h : s.length ≤ 72) : wrapName s = s := by
  unfold wrapName
  cases hs : s with
  | nil => rfl
  | cons c t =>
    rw [hs] at h
    exact wrapWhile_small (by simp) h

theorem wrapName_two {s : List Char} (h1 : 72 < s.length) (h2 : s.length ≤ 144) :
    wrapName s = s.take 72 ++ '\n' :: ' ' :: s.drop 72 := by
  unfold wrapName
  obtain ⟨f, hf⟩ : ∃ f, s.length = f + 1 := ⟨s.length - 1, by omega⟩
  rw [hf]
  unfold wrapWhile
  rw [if_neg (by intro e; rw [e] at h1; simp at h1)]
  have hd : s.drop 72 ≠ [] := by
    rw [Ne, List.drop_eq_nil_iff]; omega
  rw [if_neg hd]
  have hw : wrapWhile f (s.drop 72) = s.drop 72 :=
    wrapWhile_small (by omega) (by rw [List.length_drop]; omega)
  rw [hw]

/- ------------------------------------------------------------------ -/
/- Evaluation lemmas for the header matcher and the parse step.        -/
/- ------------------------------------------------------------------ -/

theorem matchHeader_nameLine (v : List Char) :
    matchHeader (cs ("Name: ") ++ v) = some (cs ("name"), dropSpaces v) := rfl

theorem matchHeader_md5Line (e : List Char) :
    matchHeader (cs ("MD5-Digest: ") ++ e) = some (cs ("md5-digest"), dropSpaces e) := rfl

theorem matchHeader_sha1Line (e : List Char) :
    matchHeader (cs ("SHA1-Digest: ") ++ e) = some (cs ("sha1-digest"), dropSpaces e) := rfl

theorem step_header_line {st : PState} {n : Nat} {raw h v : List Char}
    (hr : rstrip raw = raw) (hlen : raw.length ≤ 72) (hne : raw ≠ [])
    (hh : raw.head? ≠ some ' ') (hm : matchHeader raw = some (h, v)) :
    step st n raw = Except.ok (applyHeader st h v) := by
  simp only [step, hr]
  rw [if_neg (by omega), if_neg hne, if_neg hh, hm]

theorem step_blank_line {st : PState} {n : Nat} {raw : List Char}
    (hr : rstrip raw = []) : step st n raw = flushBlank st := by
  simp only [step, hr]
  simp

theorem step_cont_line {st : PState} {n : Nat} {raw : List Char}
    (hr : rstrip raw = raw) (hlen : raw.length ≤ 72) (hne : raw ≠ [])
    (hh : raw.head? = some ' ') : step st n raw = applyCont st n raw := by
  simp only [step, hr]
  rw [if_neg (by omega), if_neg hne, if_pos hh]

theorem applyHeader_name (kw : List (List Char × List Nat)) (its : List Section)
    (itm : PItem) (hd v : List Char) :
    applyHeader ⟨kw, its, itm, hd⟩ (cs ("name")) v =
      if dirSearch v then (⟨kw, its, itm, cs ("name")⟩ : PState)
      else ⟨kw, its, ⟨some v, itm.algos, itm.digests⟩, cs ("name")⟩ := rfl

theorem applyHeader_md5 (kw : List (List Char × List Nat)) (its : List Section)
    (itm : PItem) (hd v : List Char) :
    applyHeader ⟨kw, its, itm, hd⟩ (cs ("md5-digest")) v =
      ⟨kw, its, ⟨itm.name, itm.algos,
        some (assocInsert (cs ("md5")) (b64decode v) (itm.digests.getD []))⟩,
        cs ("md5-digest")⟩ := rfl

theorem applyHeader_sha1 (kw : List (List Char × List Nat)) (its : List Section)
    (itm : PItem) (hd v : List Char) :
    applyHeader ⟨kw, its, itm, hd⟩ (cs ("sha1-digest")) v =
      ⟨kw, its, ⟨itm.name, itm.algos,
        some (assocInsert (cs ("sha1")) (b64decode v) (itm.digests.getD []))⟩,
        cs ("sha1-digest")⟩ := rfl

theorem applyCont_name (kw : List (List Char × List Nat)) (its : List Section)
    (w : List Char) (al : Option (List (List Char)))
    (dg : Option (List (List Char × List Nat))) (n : Nat) (u : List Char) :
    applyCont ⟨kw, its, ⟨some w, al, dg⟩, cs ("name")⟩ n (' ' :: u) =
      Except.ok ⟨kw, its, ⟨some (w ++ u), al, dg⟩, cs ("name")⟩ := rfl

theorem flushBlank_full (kw : List (List Char × List Nat)) (its : List Section)
    (nm : List Char) (al : List (List Char)) (dg : List (List Char × List Nat))
    (hd : List Char) :
    flushBlank ⟨kw, its, ⟨some nm, some al, some dg⟩, hd⟩ =
      Except.ok ⟨kw, its ++ [⟨nm, al, dg⟩], emptyItem, []⟩ := rfl

theorem flushBlank_empty (kw : List (List Char × List Nat)) (its : List Section)
    (hd : List Char) :
    flushBlank ⟨kw, its, emptyItem, hd⟩ = Except.ok ⟨kw, its, emptyItem, []⟩ := rfl

theorem goLines_cons_ok {raw : List Char} {rest : List (List Char)} {n : Nat}
    {st st2 : PState} (h : step st (n + 1) raw = Except.ok st2) :
    goLines (raw :: rest) n st = goLines rest (n + 1) st2 := by
  have e : goLines (raw :: rest) n st =
      match step st (n + 1) raw with
      | Except.ok st3 => goLines rest (n + 1) st3
      | Except.error e => Except.error e := rfl
  rw [e, h]

/- ------------------------------------------------------------------ -/
/- Fully evaluated step lemmas for each line kind of a section.        -/
/- ------------------------------------------------------------------ -/

theorem step_nameLine (kw : List (List Char × List Nat)) (its : List Section)
    (hd : List Char) (n : Nat) {v : List Char}
    (hv : ∀ c ∈ v, isSpaceChar c = false) (hne : v ≠ []) (hlen : v.length ≤ 66)
    (hdir : dirSearch v = false) :
    step ⟨kw, its, emptyItem, hd⟩ n (cs ("Name: ") ++ v) =
      Except.ok ⟨kw, its, ⟨some v, none, none⟩, cs ("name")⟩ := by
  have hr : rstrip (cs ("Name: ") ++ v) = cs ("Name: ") ++ v :=
    rstrip_append hne fun c hc =>
      hv c (List.mem_of_mem_getLast? (Option.mem_def.mpr hc))
  have hlen2 : (cs ("Name: ") ++ v).length ≤ 72 := by
    rw [List.length_append, show (cs ("Name: ")).length = 6 from rfl]
    omega
  have hne2 : cs ("Name: ") ++ v ≠ [] := by
    intro e
    have := congrArg List.length e
    rw [List.length_append, show (cs ("Name: ")).length = 6 from rfl] at this
    simp at this
  have hh : (cs ("Name: ") ++ v).head? ≠ some ' ' := by
    rw [show (cs ("Name: ") ++ v).head? = some 'N' from rfl]
    decide
  rw [step_header_line hr hlen2 hne2 hh (matchHeader_nameLine v),
    dropSpaces_all hv, applyHeader_name, hdir]
  rfl

theorem step_contLine (kw : List (List Char × List Nat)) (its : List Section)
    (_hd : List Char) (n : Nat) (w : List Char) {u : List Char}
    (hu : ∀ c ∈ u, isSpaceChar c = false) (hne : u ≠ []) (hlen : u.length ≤ 71) :
    step ⟨kw, its, ⟨some w, none, none⟩, cs ("name")⟩ n (' ' :: u) =
      Except.ok ⟨kw, its, ⟨some (w ++ u), none, none⟩, cs ("name")⟩ := by
  have hr : rstrip (' ' :: u) = ' ' :: u := by
    rw [show (' ' :: u) = [' '] ++ u from rfl]
    exact rstrip_append hne fun c hc =>
      hu c (List.mem_of_mem_getLast? (Option.mem_def.mpr hc))
  have hlen2 : (' ' :: u).length ≤ 72 := by
    rw [List.length_cons]; omega
  rw [step_cont_line hr hlen2 (by simp) rfl]
  exact applyCont_name kw its w none none n u

theorem step_algosLine (kw : List (List Char × List Nat)) (its : List Section)
    (nmO : Option (List Char)) (alO : Option (List (List Char)))
    (dgO : Option (List (List Char × List Nat))) (hd : List Char) (n : Nat) :
    step ⟨kw, its, ⟨nmO, alO, dgO⟩, hd⟩ n (cs ("Digest-Algorithms: MD5 SHA1")) =
      Except.ok ⟨kw, its, ⟨nmO, some [cs ("md5"), cs ("sha1")], dgO⟩,
        cs ("digest-algorithms")⟩ := rfl

theorem step_md5Line (kw : List (List Char × List Nat)) (its : List Section)
    (nmO : Option (List Char)) (alO : Option (List (List Char))) (hd : List Char)
    (n : Nat) {dv : List Nat} (hne : dv ≠ []) (hlen : dv.length ≤ 42)
    (hbytes : ∀ x ∈ dv, x < 256) :
    step ⟨kw, its, ⟨nmO, alO, none⟩, hd⟩ n (cs ("MD5-Digest: ") ++ b64encode dv) =
      Except.ok ⟨kw, its, ⟨nmO, alO, some [(cs ("md5"), dv)]⟩, cs ("md5-digest")⟩ := by
  have hencne : b64encode dv ≠ [] := b64encode_ne_nil hne
  have hr : rstrip (cs ("MD5-Digest: ") ++ b64encode dv) =
      cs ("MD5-Digest: ") ++ b64encode dv :=
    rstrip_append hencne fun c hc =>
      b64encode_no_space c (List.mem_of_mem_getLast? (Option.mem_def.mpr hc))
  have hlen2 : (cs ("MD5-Digest: ") ++ b64encode dv).length ≤ 72 := by
    rw [List.length_append, show (cs ("MD5-Digest: ")).length = 12 from rfl,
      b64encode_length]
    omega
  have hne2 : cs ("MD5-Digest: ") ++ b64encode dv ≠ [] := by
    intro e
    have := congrArg List.length e
    rw [List.length_append, show (cs ("MD5-Digest: ")).length = 12 from rfl] at this
    simp at this
  have hh : (cs ("MD5-Digest: ") ++ b64encode dv).head? ≠ some ' ' := by
    rw [show (cs ("MD5-Digest: ") ++ b64encode dv).head? = some 'M' from rfl]
    decide
  rw [step_header_line hr hlen2 hne2 hh (matchHeader_md5Line (b64encode dv)),
    dropSpaces_all (fun c hc => b64encode_no_space c hc), applyHeader_md5,
    b64_roundtrip hbytes]
  rfl

theorem step_sha1Line (kw : List (List Char × List Nat)) (its : List Section)
    (nmO : Option (List Char)) (alO : Option (List (List Char))) (hd : List Char)
    (n : Nat) (v : List Nat) {dv : List Nat} (hne : dv ≠ []) (hlen : dv.length ≤ 42)
    (hbytes : ∀ x ∈ dv, x < 256) :
    step ⟨kw, its, ⟨nmO, alO, some [(cs ("md5"), v)]⟩, hd⟩ n
        (cs ("SHA1-Digest: ") ++ b64encode dv) =
      Except.ok ⟨kw, its, ⟨nmO, alO, some [(cs ("md5"), v), (cs ("sha1"), dv)]⟩,
        cs ("sha1-digest")⟩ := by
  have hencne : b64encode dv ≠ [] := b64encode_ne_nil hne
  have hr : rstrip (cs ("SHA1-Digest: ") ++ b64encode dv) =
      cs ("SHA1-Digest: ") ++ b64encode dv :=
    rstrip_append hencne fun c hc =>
      b64encode_no_space c (List.mem_of_mem_getLast? (Option.mem_def.mpr hc))
  have hlen2 : (cs ("SHA1-Digest: ") ++ b64encode dv).length ≤ 72 := by
    rw [List.length_append, show (cs ("SHA1-Digest: ")).length = 13 from rfl,
      b64encode_length]
    omega
  have hne2 : cs ("SHA1-Digest: ") ++ b64encode dv ≠ [] := by
    intro e
    have := congrArg List.length e
    rw [List.length_append, show (cs ("SHA1-Digest: ")).length = 13 from rfl] at this
    simp at this
  have hh : (cs ("SHA1-Digest: ") ++ b64encode dv).head? ≠ some ' ' := by
    rw [show (cs ("SHA1-Digest: ") ++ b64encode dv).head? = some 'S' from rfl]
    decide
  rw [step_header_line hr hlen2 hne2 hh (matchHeader_sha1Line (b64encode dv)),
    dropSpaces_all (fun c hc => b64encode_no_space c hc), applyHeader_sha1,
    b64_roundtrip hbytes]
  rfl

/- ------------------------------------------------------------------ -/
/- Processing one serialized well-formed section.                      -/
/- ------------------------------------------------------------------ -/

theorem go_section (kw : List (List Char × List Nat)) (acc : List Section)
    (hd : List Char) (n : Nat) (rest : List (List Char)) (b : List Char)
    {nm : List Char} {v w : List Nat}
    (hnm1 : nm ≠ []) (hnm2 : nm.length ≤ 137) (hnm3 : ∀ c ∈ nm, isSpaceChar c = false)
    (hdir66 : dirSearch (nm.take 66) = false)
    (hv1 : v ≠ []) (hv2 : v.length ≤ 42) (hv3 : ∀ x ∈ v, x < 256)
    (hw1 : w ≠ []) (hw2 : w.length ≤ 42) (hw3 : ∀ x ∈ w, x < 256)
    (hb : rstrip b = []) (hdir : dirSearch nm = false) :
    goLines (sectionLinesWF nm v w ++ b :: rest) n ⟨kw, acc, emptyItem, hd⟩ =
      goLines rest (n + (sectionLinesWF nm v w).length + 1)
        ⟨kw, acc ++ [⟨nm, [cs ("md5"), cs ("sha1")],
          [(cs ("md5"), v), (cs ("sha1"), w)]⟩], emptyItem, []⟩ := by
  by_cases hshort : 6 + nm.length ≤ 72
  · have hL : sectionLinesWF nm v w = [cs ("Name: ") ++ nm,
        cs ("Digest-Algorithms: MD5 SHA1"), cs ("MD5-Digest: ") ++ b64encode v,
        cs ("SHA1-Digest: ") ++ b64encode w] := by
      simp [sectionLinesWF, nameLines, hshort]
    rw [hL]
    simp only [List.cons_append, List.nil_append]
    rw [goLines_cons_ok (step_nameLine kw acc hd (n + 1) hnm3 hnm1 (by omega) hdir)]
    rw [goLines_cons_ok (step_algosLine kw acc (some nm) none none (cs ("name")) (n + 2))]
    rw [goLines_cons_ok (step_md5Line kw acc (some nm) (some [cs ("md5"), cs ("sha1")])
      (cs ("digest-algorithms")) (n + 3) hv1 hv2 hv3)]
    rw [goLines_cons_ok (step_sha1Line kw acc (some nm) (some [cs ("md5"), cs ("sha1")])
      (cs ("md5-digest")) (n + 4) v hw1 hw2 hw3)]
    rw [goLines_cons_ok ((step_blank_line hb).trans
      (flushBlank_full kw acc nm [cs ("md5"), cs ("sha1")]
        [(cs ("md5"), v), (cs ("sha1"), w)] (cs ("sha1-digest"))))]
    rfl
  · have ht66 : (cs ("Name: ") ++ nm).take 72 = cs ("Name: ") ++ nm.take 66 := by
      rw [List.take_append_eq_append_take,
        List.take_of_length_le (show (cs ("Name: ")).length ≤ 72 by
          rw [show (cs ("Name: ")).length = 6 from rfl]; omega),
        show (cs ("Name: ")).length = 6 from rfl]
    have hd66 : (cs ("Name: ") ++ nm).drop 72 = nm.drop 66 := by
      rw [List.drop_append_eq_append_drop,
        List.drop_eq_nil_iff.mpr (show (cs ("Name: ")).length ≤ 72 by
          rw [show (cs ("Name: ")).length = 6 from rfl]; omega),
        show (cs ("Name: ")).length = 6 from rfl]
      norm_num
    have hL : sectionLinesWF nm v w = (cs ("Name: ") ++ nm.take 66) ::
        (' ' :: nm.drop 66) :: [cs ("Digest-Algorithms: MD5 SHA1"),
        cs ("MD5-Digest: ") ++ b64encode v, cs ("SHA1-Digest: ") ++ b64encode w] := by
      simp only [sectionLinesWF, nameLines, if_neg hshort, ht66, hd66]
      rfl
    rw [hL]
    simp only [List.cons_append, List.nil_append]
    have htne : nm.take 66 ≠ [] := by
      intro e
      have h2 := congrArg List.length e
      rw [List.length_take] at h2
      simp only [List.length_nil] at h2
      omega
    have hdne : nm.drop 66 ≠ [] := by
      intro e
      have h2 := congrArg List.length e
      rw [List.length_drop] at h2
      simp only [List.length_nil] at h2
      omega
    rw [goLines_cons_ok (step_nameLine kw acc hd (n + 1)
      (fun c hc => hnm3 c (List.take_subset _ _ hc)) htne
      (by rw [List.length_take]; omega) hdir66)]
    rw [goLines_cons_ok (step_contLine kw acc (cs ("name")) (n + 2) (nm.take 66)
      (fun c hc => hnm3 c (List.drop_subset _ _ hc)) hdne
      (by rw [List.length_drop]; omega))]
    rw [List.take_append_drop]
    rw [goLines_cons_ok (step_algosLine kw acc (some nm) none none (cs ("name")) (n + 3))]
    rw [goLines_cons_ok (step_md5Line kw acc (some nm) (some [cs ("md5"), cs ("sha1")])
      (cs ("digest-algorithms")) (n + 4) hv1 hv2 hv3)]
    rw [goLines_cons_ok (step_sha1Line kw acc (some nm) (some [cs ("md5"), cs ("sha1")])
      (cs ("md5-digest")) (n + 5) v hw1 hw2 hw3)]
    rw [goLines_cons_ok ((step_blank_line hb).trans
      (flushBlank_full kw acc nm [cs ("md5"), cs ("sha1")]
        [(cs ("md5"), v), (cs ("sha1"), w)] (cs ("sha1-digest"))))]
    rfl

/- ------------------------------------------------------------------ -/
/- Serialization of a well-formed section, line by line.               -/
/- ------------------------------------------------------------------ -/

theorem sectionStr_joinNl {nm : List Char} {v w : List Nat} (s : Section)
    (hnm : s.name = nm)
    (hdg : s.digests = [(cs ("md5"), v), (cs ("sha1"), w)])
    (hlen : nm.length ≤ 137) :
    sectionStr s = joinNl (sectionLinesWF nm v w) := by
  have horder : digestOrder s = [cs ("md5"), cs ("sha1")] := by
    unfold digestOrder
    rw [hdg]
    rfl
  have hfindm : assocFindD s.digests (cs ("md5")) = v := by rw [hdg]; rfl
  have hfinds : assocFindD s.digests (cs ("sha1")) = w := by rw [hdg]; rfl
  unfold sectionStr
  rw [horder]
  simp only [List.map_cons, List.map_nil, List.flatten]
  rw [hfindm, hfinds, hnm]
  by_cases hshort : 6 + nm.length ≤ 72
  · rw [wrapName_small (by
      rw [List.length_append, show (cs ("Name: ")).length = 6 from rfl]; omega)]
    simp only [joinNl, sectionLinesWF, nameLines, if_pos hshort, List.map_cons,
      List.map_nil, List.flatten, List.append_assoc, List.cons_append,
      List.append_nil, List.nil_append]
    rfl
  · rw [wrapName_two (by
        rw [List.length_append, show (cs ("Name: ")).length = 6 from rfl]; omega)
      (by rw [List.length_append, show (cs ("Name: ")).length = 6 from rfl]; omega)]
    simp only [joinNl, sectionLinesWF, nameLines, if_neg hshort, List.map_cons,
      List.map_nil, List.flatten, List.append_assoc, List.cons_append,
      List.append_nil, List.nil_append]
    rfl

theorem noNl_sectionLinesWF {nm : List Char} {v w : List Nat}
    (hnm : ∀ c ∈ nm, isSpaceChar c = false) :
    ∀ l ∈ sectionLinesWF nm v w, ('\n') ∉ l := by
  have hnm2 : ('\n') ∉ nm := by
    intro hmem
    have := hnm _ hmem
    simp [isSpaceChar] at this
  have hfull : ('\n') ∉ cs ("Name: ") ++ nm := by
    intro hmem
    rcases List.mem_append.mp hmem with h1 | h1
    · exact absurd h1 (by decide)
    · exact hnm2 h1
  have hmd5 : ('\n') ∉ cs ("MD5-Digest: ") ++ b64encode v := by
    intro hmem
    rcases List.mem_append.mp hmem with h1 | h1
    · exact absurd h1 (by decide)
    · exact b64encode_no_newline h1
  have hsha1 : ('\n') ∉ cs ("SHA1-Digest: ") ++ b64encode w := by
    intro hmem
    rcases List.mem_append.mp hmem with h1 | h1
    · exact absurd h1 (by decide)
    · exact b64encode_no_newline h1
  intro l hl
  unfold sectionLinesWF nameLines at hl
  by_cases hshort : 6 + nm.length ≤ 72
  · rw [if_pos hshort] at hl
    simp only [List.cons_append, List.nil_append, List.mem_cons,
      List.not_mem_nil, or_false] at hl
    rcases hl with rfl | rfl | rfl | rfl
    · exact hfull
    · decide
    · exact hmd5
    · exact hsha1
  · rw [if_neg hshort] at hl
    simp only [List.cons_append, List.nil_append, List.mem_cons,
      List.not_mem_nil, or_false] at hl
    rcases hl with rfl | rfl | rfl | rfl | rfl
    · exact fun hmem => hfull (List.take_subset _ _ hmem)
    · intro hmem
      rcases List.mem_cons.mp hmem with h1 | h1
      · exact absurd h1 (by decide)
      · exact hfull (List.drop_subset _ _ h1)
    · decide
    · exact hmd5
    · exact hsha1

/-- Unpack everything the round-trip proof needs from a well-formed
section. -/
theorem WF_unpack {s : Section} (h : WFSection s) :
    ∃ v w, s.digests = [(cs ("md5"), v), (cs ("sha1"), w)] ∧
      v ≠ [] ∧ v.length ≤ 42 ∧ (∀ x ∈ v, x < 256) ∧
      w ≠ [] ∧ w.length ≤ 42 ∧ (∀ x ∈ w, x < 256) ∧
      sectionStr s = joinNl (sectionLinesWF s.name v w) ∧
      sectionLines s = sectionLinesWF s.name v w ∧
      (∀ l ∈ sectionLinesWF s.name v w, ('\n') ∉ l) := by
  obtain ⟨h1, h2, h3, h4, h5, hmap, hsz, h8, h9, h10⟩ := h
  rcases hdg : s.digests with _ | ⟨⟨k1, v⟩, tl⟩
  · rw [hdg] at hmap; simp at hmap
  · rcases tl with _ | ⟨⟨k2, w⟩, tl2⟩
    · rw [hdg] at hmap; simp at hmap
    · rcases tl2 with _ | ⟨r, tl3⟩
      · rw [hdg] at hmap
        simp only [List.map_cons, List.map_nil] at hmap
        obtain ⟨hk1, hk2⟩ : k1 = cs ("md5") ∧ k2 = cs ("sha1") := by
          have e1 := congrArg (fun l => List.getD l 0 []) hmap
          have e2 := congrArg (fun l => List.getD l 1 []) hmap
          simp at e1 e2
          exact ⟨e1, e2⟩
        subst hk1
        subst hk2
        have hv := hsz (cs ("md5"), v) (by rw [hdg]; simp)
        have hw := hsz (cs ("sha1"), w) (by rw [hdg]; simp)
        have hstr : sectionStr s = joinNl (sectionLinesWF s.name v w) :=
          sectionStr_joinNl s rfl hdg h2
        refine ⟨v, w, rfl, hv.1, hv.2.1, hv.2.2, hw.1, hw.2.1, hw.2.2, hstr, ?_, ?_⟩
        · unfold sectionLines
          rw [hstr]
          exact splitLines_joinNl_nil (noNl_sectionLinesWF h3)
        · exact noNl_sectionLinesWF h3
      · rw [hdg] at hmap
        simp at hmap

/- ------------------------------------------------------------------ -/
/- The physical lines of a serialized manifest.                        -/
/- ------------------------------------------------------------------ -/

theorem splitLines_body : ∀ (secs : List Section), (∀ s ∈ secs, WFSection s) →
    splitLines (manifestBody secs) = bodyLines secs
  | [], _ => rfl
  | [s], _ => by
    have hb : manifestBody [s] = sectionStr s := by
      simp [manifestBody, List.intercalate]
    rw [hb]
    rfl
  | s :: s2 :: tl, h => by
    have ih := splitLines_body (s2 :: tl) fun x hx => h x (List.mem_cons_of_mem _ hx)
    obtain ⟨v, w, hdg, _, _, _, _, _, _, hstr, hlines, hnoNl⟩ :=
      WF_unpack (h s (by simp))
    have hb : manifestBody (s :: s2 :: tl) =
        sectionStr s ++ '\n' :: manifestBody (s2 :: tl) := by
      simp only [manifestBody, List.map_cons]
      rw [show List.intercalate (cs ("\n"))
            (sectionStr s :: sectionStr s2 :: List.map sectionStr tl) =
          sectionStr s ++ cs ("\n") ++
            List.intercalate (cs ("\n")) (sectionStr s2 :: List.map sectionStr tl) from by
        simp [List.intercalate]]
      rw [List.append_assoc]
      rw [show (cs ("\n") : List Char) ++
            List.intercalate (cs ("\n")) (sectionStr s2 :: List.map sectionStr tl) =
          '\n' :: List.intercalate (cs ("\n")) (sectionStr s2 :: List.map sectionStr tl)
        from rfl]
    rw [hb, hstr, splitLines_joinNl hnoNl]
    rw [show splitLines ('\n' :: manifestBody (s2 :: tl)) =
        [] :: splitLines (manifestBody (s2 :: tl)) from rfl]
    rw [ih]
    rw [show bodyLines (s :: s2 :: tl) = sectionLines s ++ [] :: bodyLines (s2 :: tl)
      from rfl]
    rw [hlines]

theorem splitLines_manifestStr {secs : List Section}
    (h : ∀ s ∈ secs, WFSection s) :
    splitLines (manifestStr ⟨secs, []⟩) = manifestHeader :: [] :: bodyLines secs := by
  unfold manifestStr
  rw [show (⟨secs, []⟩ : Manifest).sections = secs from rfl]
  rw [List.append_assoc, List.append_assoc]
  rw [show (cs ("\n") : List Char) ++ (cs ("\n") ++ manifestBody secs) =
      '\n' :: ('\n' :: manifestBody secs) from rfl]
  rw [splitLines_append_newline (by decide)]
  rw [show splitLines ('\n' :: manifestBody secs) =
      [] :: splitLines (manifestBody secs) from rfl]
  rw [splitLines_body secs h]

theorem step_versionLine (kw : List (List Char × List Nat)) (its : List Section)
    (itm : PItem) (hd : List Char) (n : Nat) :
    step ⟨kw, its, itm, hd⟩ n manifestHeader =
      Except.ok ⟨kw, its, itm, cs ("manifest-version")⟩ := rfl

/- ------------------------------------------------------------------ -/
/- Processing the whole body of a serialized manifest.                 -/
/- ------------------------------------------------------------------ -/

theorem goBody : ∀ (secs : List Section), (∀ s ∈ secs, WFSection s) →
    ∀ (kw : List (List Char × List Nat)) (acc : List Section) (hd : List Char) (n : Nat),
    goLines (bodyLines secs ++ [cs ("\n"), cs ("\n")]) n ⟨kw, acc, emptyItem, hd⟩ =
      Except.ok ⟨kw, acc ++ secs.map parsedOf, emptyItem, []⟩
  | [], _, kw, acc, hd, n => by
    show goLines [cs ("\n"), cs ("\n")] n ⟨kw, acc, emptyItem, hd⟩ = _
    rw [goLines_cons_ok ((step_blank_line (show rstrip (cs ("\n")) = [] from rfl)).trans
      (flushBlank_empty kw acc hd))]
    rw [goLines_cons_ok ((step_blank_line (show rstrip (cs ("\n")) = [] from rfl)).trans
      (flushBlank_empty kw acc []))]
    rw [show goLines [] (n + 1 + 1) (⟨kw, acc, emptyItem, []⟩ : PState) =
      Except.ok ⟨kw, acc, emptyItem, []⟩ from rfl]
    rw [List.map_nil, List.append_nil]
  | [s], h, kw, acc, hd, n => by
    obtain ⟨hn1, hn2, hn3, hn4, hn5, _, _, _, _, _⟩ := h s (by simp)
    obtain ⟨v, w, hdg, hv1, hv2, hv3, hw1, hw2, hw3, hstr, hlines, hnoNl⟩ :=
      WF_unpack (h s (by simp))
    show goLines (sectionLines s ++ [cs ("\n"), cs ("\n")]) n ⟨kw, acc, emptyItem, hd⟩ = _
    rw [hlines]
    rw [show (sectionLinesWF s.name v w ++ [cs ("\n"), cs ("\n")]) =
        (sectionLinesWF s.name v w ++ cs ("\n") :: [cs ("\n")]) from rfl]
    rw [go_section kw acc hd n [cs ("\n")] (cs ("\n")) hn1 hn2 hn3 hn5 hv1 hv2 hv3
      hw1 hw2 hw3 (show rstrip (cs ("\n")) = [] from rfl) hn4]
    rw [goLines_cons_ok ((step_blank_line (show rstrip (cs ("\n")) = [] from rfl)).trans
      (flushBlank_empty kw
        (acc ++ [(⟨s.name, [cs ("md5"), cs ("sha1")],
          [(cs ("md5"), v), (cs ("sha1"), w)]⟩ : Section)])
        []))]
    rw [← hdg]
    rfl
  | s :: s2 :: tl, h, kw, acc, hd, n => by
    obtain ⟨hn1, hn2, hn3, hn4, hn5, _, _, _, _, _⟩ := h s (by simp)
    obtain ⟨v, w, hdg, hv1, hv2, hv3, hw1, hw2, hw3, hstr, hlines, hnoNl⟩ :=
      WF_unpack (h s (by simp))
    show goLines ((sectionLines s ++ [] :: bodyLines (s2 :: tl)) ++ [cs ("\n"), cs ("\n")])
      n ⟨kw, acc, emptyItem, hd⟩ = _
    rw [hlines, List.append_assoc, List.cons_append]
    rw [go_section kw acc hd n (bodyLines (s2 :: tl) ++ [cs ("\n"), cs ("\n")]) []
      hn1 hn2 hn3 hn5 hv1 hv2 hv3 hw1 hw2 hw3 (show rstrip ([] : List Char) = [] from rfl)
      hn4]
    rw [goBody (s2 :: tl) (fun x hx => h x (List.mem_cons_of_mem _ hx)) kw
      (acc ++ [(⟨s.name, [cs ("md5"), cs ("sha1")],
        [(cs ("md5"), v), (cs ("sha1"), w)]⟩ : Section)])
      [] (n + (sectionLinesWF s.name v w).length + 1)]
    rw [List.append_assoc, ← hdg]
    rfl

theorem sectionEquiv_parsedOf {s : Section} (h : WFSection s) :
    sectionEquiv s (parsedOf s) := by
  obtain ⟨_, _, _, _, _, _, _, h8, h9, h10⟩ := h
  refine ⟨rfl, ?_, rfl⟩
  intro x
  show x ∈ s.algos ↔ x ∈ [cs ("md5"), cs ("sha1")]
  constructor
  · intro hx
    rcases h8 x hx with rfl | rfl
    · simp
    · simp
  · intro hx
    rcases List.mem_cons.mp hx with rfl | hx2
    · exact h9
    · rcases List.mem_cons.mp hx2 with rfl | hx3
      · exact h10
      · simp at hx3

/-- C1 (amended).  For a Manifest built from well-formed sections (names of
non-whitespace bytes, at most 137 characters, not directory markers nor
truncating to one at the wrap point; digest dicts holding exactly md5 and
sha1 digests of 1..42 bytes; algos tuples naming exactly those algorithms),
Manifest.parse of the serialized text succeeds and returns sections with the
same names, the same algorithm sets and the same raw digest bytes, in the
same order. -/
theorem C1_roundtrip_amended (secs : List Section) (h : ∀ s ∈ secs, WFSection s) :
    parseManifest (manifestStr ⟨secs, []⟩) =
      Except.ok ⟨secs.map parsedOf, []⟩ ∧
    List.Forall₂ sectionEquiv secs (secs.map parsedOf) := by
  constructor
  · unfold parseManifest
    rw [splitLines_manifestStr h]
    rw [show (manifestHeader :: [] :: bodyLines secs) ++ [cs ("\n"), cs ("\n")] =
        manifestHeader :: [] :: (bodyLines secs ++ [cs ("\n"), cs ("\n")]) from by simp]
    rw [show initPState = (⟨[], [], emptyItem, []⟩ : PState) from rfl]
    rw [goLines_cons_ok (step_versionLine [] [] emptyItem [] _)]
    rw [goLines_cons_ok ((step_blank_line (show rstrip ([] : List Char) = [] from rfl)).trans
      (flushBlank_empty [] [] (cs ("manifest-version"))))]
    rw [goBody secs h [] [] []]
    rw [List.nil_append]
  · exact List.forall₂_map_right_iff.mpr
      (List.forall₂_same.mpr fun x hx => sectionEquiv_parsedOf (h x hx))

/-- C1 witness: the amended round-trip applied to a one-section manifest with
a concrete md5/sha1 digest pair. -/
theorem C1_roundtrip_witness :
    (∀ s ∈ [(⟨cs ("f.txt"), [cs ("md5"), cs ("sha1")],
        [(cs ("md5"), List.replicate 16 0), (cs ("sha1"), List.replicate 20 0)]⟩ : Section)],
      WFSection s) ∧
    (parseManifest (manifestStr ⟨[(⟨cs ("f.txt"), [cs ("md5"), cs ("sha1")],
        [(cs ("md5"), List.replicate 16 0), (cs ("sha1"), List.replicate 20 0)]⟩ : Section)],
        []⟩) =
      Except.ok ⟨[(⟨cs ("f.txt"), [cs ("md5"), cs ("sha1")],
        [(cs ("md5"), List.replicate 16 0), (cs ("sha1"), List.replicate 20 0)]⟩ : Section)].map
          parsedOf, []⟩ ∧
    List.Forall₂ sectionEquiv
      [(⟨cs ("f.txt"), [cs ("md5"), cs ("sha1")],
        [(cs ("md5"), List.replicate 16 0), (cs ("sha1"), List.replicate 20 0)]⟩ : Section)]
      ([(⟨cs ("f.txt"), [cs ("md5"), cs ("sha1")],
        [(cs ("md5"), List.replicate 16 0), (cs ("sha1"), List.replicate 20 0)]⟩ : Section)].map
          parsedOf)) := by
  have hwf : ∀ s ∈ [(⟨cs ("f.txt"), [cs ("md5"), cs ("sha1")],
      [(cs ("md5"), List.replicate 16 0), (cs ("sha1"), List.replicate 20 0)]⟩ : Section)],
      WFSection s := by decide
  exact ⟨hwf, C1_roundtrip_amended _ hwf⟩

/-- C1 counterexample.  The claim quantifies over arbitrary sections whose
names are not directory markers; for a section whose digest dict and algos
tuple are empty, serialization emits a bare Digest-Algorithms header whose
empty value re-parses (through re.split of the empty string) as the
one-element algorithm tuple containing the empty string, so the parsed
algorithm set differs from the original empty set. -/
theorem C1_counterexample :
    parseManifest (manifestStr ⟨[⟨cs ("a"), [], []⟩], []⟩) =
      Except.ok ⟨[⟨cs ("a"), [[]], []⟩], []⟩ ∧
    ¬ sectionEquiv ⟨cs ("a"), [], []⟩ ⟨cs ("a"), [[]], []⟩ := by
  constructor
  · rfl
  · intro hequiv
    have h2 := (hequiv.2.1 []).mpr (by simp)
    simp at h2

/-- C2.  The Signature the extractor builds satisfies the digest chain: its
digest_manifests map is the MD5/SHA-1 digest map of the exact serialized
Manifest text (in particular its sha1 entry is the SHA-1 of str(manifest)),
and its sections are the _sign images of the manifest sections, so each
carries the digests of the serialized text of the corresponding Manifest
section rather than of the entry's content. -/
theorem C2_signature_digest_chain (md5h sha1h : List Char → List Nat)
    (files : List ZEntry) (omitSections : Bool) :
    (jarSignatures md5h sha1h files omitSections).digest_manifests =
      _digest md5h sha1h (manifestStr (jarManifest md5h sha1h files)) ∧
    assocFindD (jarSignatures md5h sha1h files omitSections).digest_manifests
        (cs ("sha1")) =
      sha1h (manifestStr (jarManifest md5h sha1h files)) ∧
    (jarSignatures md5h sha1h files omitSections).sections =
      (jarManifest md5h sha1h files).sections.map (_sign md5h sha1h) ∧
    (jarSignatures md5h sha1h files omitSections).sections.map Section.digests =
      (jarManifest md5h sha1h files).sections.map
        (fun s => _digest md5h sha1h (sectionStr s)) := by
  refine ⟨rfl, rfl, rfl, ?_⟩
  show ((extractorSections md5h sha1h files).map (_sign md5h sha1h)).map Section.digests = _
  rw [List.map_map]
  rfl

/-- C4 (amended).  A well-formed name of 67 to 137 characters makes the Name
line exceed 72 characters; serialization then wraps it at exactly 72
characters with a single-space continuation prefix, and parsing the
serialized section succeeds and recovers the single original name.  (Names
of 138+ characters are excluded: see the counterexample.) -/
theorem C4_wrap_amended (s : Section) (h : WFSection s) (hlong : 67 ≤ s.name.length) :
    wrapName (cs ("Name: ") ++ s.name) =
      (cs ("Name: ") ++ s.name).take 72 ++
        '\n' :: ' ' :: (cs ("Name: ") ++ s.name).drop 72 ∧
    parseManifest (sectionStr s) = Except.ok ⟨[parsedOf s], []⟩ ∧
    (parsedOf s).name = s.name := by
  have h2 := h
  obtain ⟨hn1, hn2, hn3, hn4, hn5, _, _, _, _, _⟩ := h2
  obtain ⟨v, w, hdg, hv1, hv2, hv3, hw1, hw2, hw3, hstr, hlines, hnoNl⟩ := WF_unpack h
  refine ⟨wrapName_two
    (by rw [List.length_append, show (cs ("Name: ")).length = 6 from rfl]; omega)
    (by rw [List.length_append, show (cs ("Name: ")).length = 6 from rfl]; omega), ?_, rfl⟩
  unfold parseManifest
  rw [show splitLines (sectionStr s) = sectionLines s from rfl, hlines]
  rw [show initPState = (⟨[], [], emptyItem, []⟩ : PState) from rfl]
  rw [show sectionLinesWF s.name v w ++ [cs ("\n"), cs ("\n")] =
      sectionLinesWF s.name v w ++ cs ("\n") :: [cs ("\n")] from rfl]
  rw [go_section [] [] [] 0 [cs ("\n")] (cs ("\n")) hn1 hn2 hn3 hn5 hv1 hv2 hv3
    hw1 hw2 hw3 (show rstrip (cs ("\n")) = [] from rfl) hn4]
  rw [goLines_cons_ok ((step_blank_line (show rstrip (cs ("\n")) = [] from rfl)).trans
    (flushBlank_empty []
      ([] ++ [(⟨s.name, [cs ("md5"), cs ("sha1")],
        [(cs ("md5"), v), (cs ("sha1"), w)]⟩ : Section)]) []))]
  rw [List.nil_append, ← hdg]
  rfl

/-- C4 witness: the amended statement applied to a section with a
100-character name. -/
theorem C4_wrap_witness :
    (WFSection ⟨List.replicate 100 'a', [cs ("md5"), cs ("sha1")],
      [(cs ("md5"), List.replicate 16 0), (cs ("sha1"), List.replicate 20 0)]⟩ ∧
     67 ≤ (List.replicate 100 'a').length) ∧
    (wrapName (cs ("Name: ") ++
        (⟨List.replicate 100 'a', [cs ("md5"), cs ("sha1")],
          [(cs ("md5"), List.replicate 16 0),
            (cs ("sha1"), List.replicate 20 0)]⟩ : Section).name) =
      (cs ("Name: ") ++ List.replicate 100 'a').take 72 ++
        '\n' :: ' ' :: (cs ("Name: ") ++ List.replicate 100 'a').drop 72 ∧
    parseManifest (sectionStr ⟨List.replicate 100 'a', [cs ("md5"), cs ("sha1")],
        [(cs ("md5"), List.replicate 16 0), (cs ("sha1"), List.replicate 20 0)]⟩) =
      Except.ok ⟨[parsedOf ⟨List.replicate 100 'a', [cs ("md5"), cs ("sha1")],
        [(cs ("md5"), List.replicate 16 0), (cs ("sha1"), List.replicate 20 0)]⟩], []⟩ ∧
    (parsedOf ⟨List.replicate 100 'a', [cs ("md5"), cs ("sha1")],
        [(cs ("md5"), List.replicate 16 0), (cs ("sha1"), List.replicate 20 0)]⟩).name =
      List.replicate 100 'a') := by
  have hwf : WFSection ⟨List.replicate 100 'a', [cs ("md5"), cs ("sha1")],
      [(cs ("md5"), List.replicate 16 0), (cs ("sha1"), List.replicate 20 0)]⟩ := by decide
  have hlong : 67 ≤ (List.replicate 100 'a').length := by decide
  exact ⟨⟨hwf, hlong⟩, C4_wrap_amended _ hwf hlong⟩

set_option maxRecDepth 8192 in
/-- C4 counterexample.  For a 138-character name the serialized Name entry's
continuation line has 73 characters (one space plus a full 72-character
chunk), so re-parsing the serialized section fails with a line-too-long
ParsingError at line 2 instead of succeeding as the claim states. -/
theorem C4_counterexample :
    parseManifest (sectionStr ⟨List.replicate 138 'a', [cs ("md5"), cs ("sha1")],
      [(cs ("md5"), List.replicate 16 0), (cs ("sha1"), List.replicate 20 0)]⟩) =
      Except.error (PErr.lineTooLong 2) := by
  rfl

/-- C5 (amended).  A Name header whose value ends in a path separator is
silently skipped when it is the only line of its entry: the pending item is
left untouched and only the persistent header changes, so a directory entry
followed directly by a blank line is discarded.  The extractor side holds in
full: no Section it builds has a directory-marker name.  (When digest lines
accompany the directory entry before the next blank line, the flush raises
KeyError: see the counterexample.) -/
theorem C5_directory_amended :
    (∀ (kw : List (List Char × List Nat)) (its : List Section) (hd : List Char)
      (n : Nat) (v : List Char),
      (∀ c ∈ v, isSpaceChar c = false) → v ≠ [] → v.length ≤ 66 → dirSearch v = true →
      step ⟨kw, its, emptyItem, hd⟩ n (cs ("Name: ") ++ v) =
        Except.ok ⟨kw, its, emptyItem, cs ("name")⟩) ∧
    (∀ (md5h sha1h : List Char → List Nat) (files : List ZEntry),
      ∀ s ∈ extractorSections md5h sha1h files, dirSearch s.name = false) := by
  constructor
  · intro kw its hd n v hv hne hlen hdir
    have hr : rstrip (cs ("Name: ") ++ v) = cs ("Name: ") ++ v :=
      rstrip_append hne fun c hc =>
        hv c (List.mem_of_mem_getLast? (Option.mem_def.mpr hc))
    have hlen2 : (cs ("Name: ") ++ v).length ≤ 72 := by
      rw [List.length_append, show (cs ("Name: ")).length = 6 from rfl]
      omega
    have hne2 : cs ("Name: ") ++ v ≠ [] := by
      intro e
      have := congrArg List.length e
      rw [List.length_append, show (cs ("Name: ")).length = 6 from rfl] at this
      simp at this
    have hh : (cs ("Name: ") ++ v).head? ≠ some ' ' := by
      rw [show (cs ("Name: ") ++ v).head? = some 'N' from rfl]
      decide
    rw [step_header_line hr hlen2 hne2 hh (matchHeader_nameLine v),
      dropSpaces_all hv, applyHeader_name, hdir]
    rfl
  · intro md5h sha1h files s hs
    obtain ⟨f, hf, rfl⟩ := List.mem_map.mp hs
    have hfil := (List.mem_filter.mp hf).2
    show dirSearch f.filename = false
    simpa using hfil

/-- C5 witness: the directory Name line is skipped at a concrete input, and
the extractor of a concrete one-file archive yields no directory section. -/
theorem C5_directory_witness :
    step ⟨[], [], emptyItem, []⟩ 1 (cs ("Name: ") ++ cs ("foo/")) =
      Except.ok ⟨[], [], emptyItem, cs ("name")⟩ ∧
    dirSearch (cs ("a.txt")) = false := by
  constructor
  · exact C5_directory_amended.1 [] [] [] 1 (cs ("foo/"))
      (by decide) (by decide) (by decide) (by decide)
  · exact C5_directory_amended.2 (fun _ => []) (fun _ => []) [⟨cs ("a.txt"), []⟩]
      ⟨cs ("a.txt"), [cs ("md5"), cs ("sha1")], [(cs ("md5"), []), (cs ("sha1"), [])]⟩
      (by decide)

/-- C5 counterexample.  When a directory entry is accompanied by its
Digest-Algorithms line, the Name value is skipped but the algorithm line
still populates the pending item, and the section flush at the next blank
line raises KeyError (the item has no name key) instead of parse succeeding
with the entry silently discarded, as the claim states. -/
theorem C5_counterexample :
    parseManifest (cs ("Name: foo/\nDigest-Algorithms: MD5\n")) =
      Except.error (PErr.keyError (cs ("name"))) := by
  rfl

/-- C7 (amended).  JarExtractor orders entries by the lexicographic order of
the flat formatted string "prio-dir-base" built by file_key, not by the
tuple (prio, dir, base); on the spec's example the resulting order is
exactly the one the claim lists. -/
theorem C7_priority_amended :
    (∀ (md5h sha1h : List Char → List Nat) (files : List ZEntry),
      (extractorSections md5h sha1h files).map Section.name =
        ((isort (fun a b => leStr (file_key a) (file_key b)) files).filter
          (fun f => ! dirSearch f.filename)).map ZEntry.filename) ∧
    ((extractorSections (fun _ => []) (fun _ => [])
        [⟨cs ("foo.txt"), []⟩, ⟨cs ("install.rdf"), []⟩, ⟨cs ("chrome.manifest"), []⟩,
          ⟨cs ("LICENSE"), []⟩]).map Section.name =
      [cs ("install.rdf"), cs ("chrome.manifest"), cs ("foo.txt"), cs ("LICENSE")]) := by
  constructor
  · intro md5h sha1h files
    unfold extractorSections
    rw [List.map_map]
    rfl
  · rfl

/-- C7 counterexample.  file_key is the flat string "prio-dir-base", and its
lexicographic order diverges from the claimed tuple ordering as soon as a
directory name contains a character that sorts differently against the
separator: for the entries a/x.txt and a-b/b.txt the tuple order puts a/x.txt
first (dir "a" < dir "a-b") while the code's string keys "4-a-x.txt" and
"4-a-b-b.txt" put a-b/b.txt first. -/
theorem C7_counterexample :
    (extractorSections (fun _ => []) (fun _ => [])
        [⟨cs ("a/x.txt"), []⟩, ⟨cs ("a-b/b.txt"), []⟩]).map Section.name =
      [cs ("a-b/b.txt"), cs ("a/x.txt")] ∧
    (isort specKeyLe [(⟨cs ("a/x.txt"), []⟩ : ZEntry), ⟨cs ("a-b/b.txt"), []⟩]).map
        ZEntry.filename = [cs ("a/x.txt"), cs ("a-b/b.txt")] ∧
    ([cs ("a-b/b.txt"), cs ("a/x.txt")] : List (List Char)) ≠
      [cs ("a/x.txt"), cs ("a-b/b.txt")] := by
  exact ⟨rfl, rfl, by decide⟩

/- ------------------------------------------------------------------ -/
/- Helper case analyses for the error-behavior claims.                 -/
/- ------------------------------------------------------------------ -/

theorem step_cases (st : PState) (n : Nat) (raw : List Char) :
    step st n raw =
      if 72 < (rstrip raw).length then Except.error (PErr.lineTooLong n)
      else if rstrip raw = [] then flushBlank st
      else if (rstrip raw).head? = some ' ' then applyCont st n (rstrip raw)
      else
        match matchHeader (rstrip raw) with
        | none => Except.error (PErr.unrecognizedLine (rstrip raw))
        | some hv => Except.ok (applyHeader st hv.fst hv.snd) := rfl

theorem flushBlank_cases (st : PState) :
    (∃ st2, flushBlank st = Except.ok st2) ∨
    flushBlank st = Except.error (PErr.keyError (cs ("name"))) := by
  unfold flushBlank
  by_cases he : st.item = emptyItem
  · rw [if_pos he]
    exact Or.inl ⟨_, rfl⟩
  · rw [if_neg he]
    cases hn : st.item.name with
    | none => exact Or.inr rfl
    | some nm => exact Or.inl ⟨_, rfl⟩

theorem applyCont_spec (st : PState) (n : Nat) (l : List Char) :
    (st.header = [] → applyCont st n l = Except.error (PErr.continuedNoHeader n)) ∧
    (st.header ≠ [] →
      (∃ st2, applyCont st n l = Except.ok st2) ∨
      applyCont st n l = Except.error (PErr.keyError st.header)) := by
  constructor
  · intro hh
    unfold applyCont
    rw [if_pos hh]
  · intro hh
    unfold applyCont
    rw [if_neg hh]
    by_cases h2 : st.header = cs ("name")
    · rw [if_pos h2]
      cases hn : st.item.name with
      | none => exact Or.inr rfl
      | some v => exact Or.inl ⟨_, rfl⟩
    · rw [if_neg h2]
      exact Or.inr rfl

/-- C6 (amended).  For a continuation line (a nonblank line of at most 72
characters after rstrip that begins with a space): if no header is active
the parse raises ParsingError with the 1-based line number; if the active
header is Name and a name value is pending, the remainder after the leading
space is appended to that value; in every other situation (any other active
header, or a Name whose value was discarded as a directory marker) the dict
access item[header] raises KeyError carrying the header, not ParsingError. -/
theorem C6_continuation_amended (st : PState) (n : Nat) (raw : List Char)
    (h1 : rstrip raw ≠ []) (h2 : (rstrip raw).length ≤ 72)
    (h3 : (rstrip raw).head? = some ' ') :
    (st.header = [] → step st n raw = Except.error (PErr.continuedNoHeader n)) ∧
    (st.header = cs ("name") → ∀ v, st.item.name = some v →
      step st n raw = Except.ok ⟨st.kwargs, st.items,
        ⟨some (v ++ (rstrip raw).drop 1), st.item.algos, st.item.digests⟩,
        st.header⟩) ∧
    (st.header ≠ [] → (st.header = cs ("name") → st.item.name = none) →
      step st n raw = Except.error (PErr.keyError st.header)) := by
  have hstep : step st n raw = applyCont st n (rstrip raw) := by
    rw [step_cases, if_neg (by omega), if_neg h1, if_pos h3]
  refine ⟨?_, ?_, ?_⟩
  · intro hh
    rw [hstep]
    exact (applyCont_spec st n (rstrip raw)).1 hh
  · intro hh v hv
    rw [hstep]
    unfold applyCont
    rw [if_neg (by rw [hh]; decide), if_pos hh, hv, hh]
  · intro hne hname
    rw [hstep]
    unfold applyCont
    rw [if_neg hne]
    by_cases hh : st.header = cs ("name")
    · rw [if_pos hh, hname hh]
    · rw [if_neg hh]

/-- C6 witness: a continuation line under an active Name header appends to
the pending name at a concrete input. -/
theorem C6_continuation_witness :
    step ⟨[], [], ⟨some (cs ("ab")), none, none⟩, cs ("name")⟩ 2 (cs (" cd")) =
      Except.ok ⟨[], [],
        ⟨some (cs ("ab") ++ (rstrip (cs (" cd"))).drop 1), none, none⟩,
        cs ("name")⟩ := by
  exact (C6_continuation_amended ⟨[], [], ⟨some (cs ("ab")), none, none⟩, cs ("name")⟩
    2 (cs (" cd")) (by decide) (by decide) (by decide)).2.1 rfl (cs ("ab")) rfl

/-- C6 counterexample.  A continuation line whose active header is
Digest-Algorithms makes the code execute item["digest-algorithms"] += ...,
which raises KeyError (the item dict only ever holds the keys name, algos
and digests), not the append-or-ParsingError behavior the claim states; the
error carries the header, not the line number 2. -/
theorem C6_counterexample :
    parseManifest (cs ("Digest-Algorithms: MD5\n continued")) =
      Except.error (PErr.keyError (cs ("digest-algorithms"))) ∧
    PErr.keyError (cs ("digest-algorithms")) ≠ PErr.continuedNoHeader 2 := by
  exact ⟨rfl, by decide⟩

/-- C8 (amended).  The parse loop raises ParsingError on exactly the three
malformed-line classes the claim lists, at the first offending line: a line
longer than 72 characters after stripping trailing whitespace (the error
carries the 1-based line number), a continuation line with no active header
(the error carries the 1-based line number), and an unrecognized header line
(the error carries the offending line text, not the line number). -/
theorem C8_errors_amended (st : PState) (n : Nat) (raw : List Char) :
    (step st n raw = Except.error (PErr.lineTooLong n) ↔
      72 < (rstrip raw).length) ∧
    (step st n raw = Except.error (PErr.continuedNoHeader n) ↔
      ((rstrip raw).length ≤ 72 ∧ rstrip raw ≠ [] ∧
        (rstrip raw).head? = some ' ' ∧ st.header = [])) ∧
    (step st n raw = Except.error (PErr.unrecognizedLine (rstrip raw)) ↔
      ((rstrip raw).length ≤ 72 ∧ rstrip raw ≠ [] ∧
        (rstrip raw).head? ≠ some ' ' ∧ matchHeader (rstrip raw) = none)) := by
  rw [step_cases]
  by_cases h1 : 72 < (rstrip raw).length
  · rw [if_pos h1]
    refine ⟨⟨fun _ => h1, fun _ => rfl⟩, ?_, ?_⟩
    · exact ⟨fun he => by simp at he, fun hc => absurd h1 (by omega)⟩
    · exact ⟨fun he => by simp at he, fun hc => absurd h1 (by omega)⟩
  · rw [if_neg h1]
    by_cases h2 : rstrip raw = []
    · rw [if_pos h2]
      rcases flushBlank_cases st with ⟨st2, hok⟩ | herr
      · rw [hok]
        exact ⟨⟨fun he => by simp at he, fun hc => absurd hc h1⟩,
          ⟨fun he => by simp at he, fun hc => absurd h2 hc.2.1⟩,
          ⟨fun he => by simp at he, fun hc => absurd h2 hc.2.1⟩⟩
      · rw [herr]
        exact ⟨⟨fun he => by simp at he, fun hc => absurd hc h1⟩,
          ⟨fun he => by simp at he, fun hc => absurd h2 hc.2.1⟩,
          ⟨fun he => by simp at he, fun hc => absurd h2 hc.2.1⟩⟩
    · rw [if_neg h2]
      by_cases h3 : (rstrip raw).head? = some ' '
      · rw [if_pos h3]
        by_cases hh : st.header = []
        · rw [(applyCont_spec st n (rstrip raw)).1 hh]
          exact ⟨⟨fun he => by simp at he, fun hc => absurd hc h1⟩,
            ⟨fun _ => ⟨by omega, h2, h3, hh⟩, fun _ => rfl⟩,
            ⟨fun he => by simp at he, fun hc => absurd h3 hc.2.2.1⟩⟩
        · rcases (applyCont_spec st n (rstrip raw)).2 hh with ⟨st2, hok⟩ | herr
          · rw [hok]
            exact ⟨⟨fun he => by simp at he, fun hc => absurd hc h1⟩,
              ⟨fun he => by simp at he, fun hc => absurd hc.2.2.2 hh⟩,
              ⟨fun he => by simp at he, fun hc => absurd h3 hc.2.2.1⟩⟩
          · rw [herr]
            exact ⟨⟨fun he => by simp at he, fun hc => absurd hc h1⟩,
              ⟨fun he => by simp at he, fun hc => absurd hc.2.2.2 hh⟩,
              ⟨fun he => by simp at he, fun hc => absurd h3 hc.2.2.1⟩⟩
      · rw [if_neg h3]
        cases hm : matchHeader (rstrip raw) with
        | none =>
          exact ⟨⟨fun he => by simp at he, fun hc => absurd hc h1⟩,
            ⟨fun he => by simp at he, fun hc => absurd hc.2.2.1 h3⟩,
            ⟨fun _ => ⟨by omega, h2, h3, rfl⟩, fun _ => rfl⟩⟩
        | some hv =>
          exact ⟨⟨fun he => by simp at he, fun hc => absurd hc h1⟩,
            ⟨fun he => by simp at he, fun hc => absurd hc.2.2.1 h3⟩,
            ⟨fun he => by simp at he, fun hc => by simp at hc⟩⟩

/-- C8 counterexample.  An unrecognized header at line 2 raises ParsingError
whose payload is the offending line text, not the 1-based line number the
claim promises: the error value carries no line number at all. -/
theorem C8_counterexample :
    parseManifest (cs ("Manifest-Version: 1.0\nxyzzy")) =
      Except.error (PErr.unrecognizedLine (cs ("xyzzy"))) ∧
    PErr.unrecognizedLine (cs ("xyzzy")) ≠ PErr.lineTooLong 2 ∧
    PErr.unrecognizedLine (cs ("xyzzy")) ≠ PErr.continuedNoHeader 2 := by
  exact ⟨rfl, by decide, by decide⟩

theorem assocFind?_of_mem :
    ∀ (d : List (List Char × List Nat)) (p : List Char × List Nat), p ∈ d →
      assocFind? p.fst d ≠ none
  | [], p, hp => absurd hp (by simp)
  | q :: tl, p, hp => by
    unfold assocFind?
    by_cases he : q.fst = p.fst
    · rw [if_pos he]
      simp
    · rw [if_neg he]
      rcases List.mem_cons.mp hp with rfl | hp2
    --
      · exact absurd rfl he
      · exact assocFind?_of_mem tl p hp2

/-- C9 (amended).  Sections built by the archive walk and by _sign satisfy
the invariant: every algorithm in the algos tuple has an entry in the digest
dict and every digest key appears in the algos tuple (both are constructed
from the same _digest result).  Sections materialized by Manifest.parse do
not carry this guarantee: see the counterexample. -/
theorem C9_invariant_amended (md5h sha1h : List Char → List Nat) (files : List ZEntry)
    (omitSections : Bool) (s : Section)
    (h : s ∈ extractorSections md5h sha1h files ∨
         s ∈ (jarSignatures md5h sha1h files omitSections).sections) :
    (∀ a ∈ s.algos, assocFind? a s.digests ≠ none) ∧
    (∀ p ∈ s.digests, p.fst ∈ s.algos) := by
  have key : s.algos = s.digests.map Prod.fst := by
    rcases h with h | h
    · obtain ⟨f, hf, rfl⟩ := List.mem_map.mp h
      rfl
    · obtain ⟨t, ht, rfl⟩ := List.mem_map.mp h
      rfl
  constructor
  · intro a ha
    rw [key] at ha
    obtain ⟨p, hp, rfl⟩ := List.mem_map.mp ha
    exact assocFind?_of_mem s.digests p hp
  · intro p hp
    rw [key]
    exact List.mem_map.mpr ⟨p, hp, rfl⟩

/-- C9 witness: the invariant holds for the section the extractor builds
from a concrete one-file archive. -/
theorem C9_invariant_witness :
    ((⟨cs ("a.txt"), [cs ("md5"), cs ("sha1")],
        [(cs ("md5"), []), (cs ("sha1"), [])]⟩ : Section) ∈
      extractorSections (fun _ => []) (fun _ => []) [⟨cs ("a.txt"), []⟩]) ∧
    ((∀ a ∈ (⟨cs ("a.txt"), [cs ("md5"), cs ("sha1")],
        [(cs ("md5"), []), (cs ("sha1"), [])]⟩ : Section).algos,
      assocFind? a (⟨cs ("a.txt"), [cs ("md5"), cs ("sha1")],
        [(cs ("md5"), []), (cs ("sha1"), [])]⟩ : Section).digests ≠ none) ∧
    (∀ p ∈ (⟨cs ("a.txt"), [cs ("md5"), cs ("sha1")],
        [(cs ("md5"), []), (cs ("sha1"), [])]⟩ : Section).digests,
      p.fst ∈ (⟨cs ("a.txt"), [cs ("md5"), cs ("sha1")],
        [(cs ("md5"), []), (cs ("sha1"), [])]⟩ : Section).algos)) := by
  have hmem : (⟨cs ("a.txt"), [cs ("md5"), cs ("sha1")],
      [(cs ("md5"), []), (cs ("sha1"), [])]⟩ : Section) ∈
      extractorSections (fun _ => []) (fun _ => []) [⟨cs ("a.txt"), []⟩] := by decide
  exact ⟨hmem, C9_invariant_amended (fun _ => []) (fun _ => []) [⟨cs ("a.txt"), []⟩]
    false _ (Or.inl hmem)⟩

/-- C9 counterexample.  Manifest.parse builds Section(name) with the
constructor defaults when digest lines are absent: the parsed section for a
lone Name line has the default algos tuple (md5, sha1) but an empty digest
dict, violating the claimed invariant for parse-materialized sections. -/
theorem C9_counterexample :
    parseManifest (cs ("Name: a")) =
      Except.ok ⟨[⟨cs ("a"), [cs ("md5"), cs ("sha1")], []⟩], []⟩ ∧
    ¬ (∀ a ∈ [cs ("md5"), cs ("sha1")],
        assocFind? a ([] : List (List Char × List Nat)) ≠ none) := by
  refine ⟨rfl, ?_⟩
  intro hinv
  exact hinv (cs ("md5")) (by simp) rfl

/-- C10.  make_signed raises its IOError conflicts exactly when no output
path is configured (the argument and self.outpath both falsy) or when the
destination already exists, and in both cases the error is raised before the
output archive is opened, so the list of writes performed is empty. -/
theorem C10_conflict_refusal (md5h sha1h : List Char → List Nat) (files : List ZEntry)
    (omitSections : Bool) (selfOutpath : Option (List Char))
    (fileExists : List Char → Bool) (signature : List Char)
    (outpathArg : Option (List Char)) :
    (truthy (pyOr outpathArg selfOutpath) = false →
      make_signed md5h sha1h files omitSections selfOutpath fileExists signature
        outpathArg = ([], some MakeErr.noOutput)) ∧
    (∀ p, pyOr outpathArg selfOutpath = some p → p.isEmpty = false →
      fileExists p = true →
      make_signed md5h sha1h files omitSections selfOutpath fileExists signature
        outpathArg = ([], some (MakeErr.alreadyExists p))) := by
  constructor
  · intro ht
    unfold make_signed
    cases hp : pyOr outpathArg selfOutpath with
    | none => rfl
    | some p =>
      rw [hp] at ht
      simp only [truthy, Bool.not_eq_false'] at ht
      dsimp only
      rw [if_pos ht]
  · intro p hp hne hex
    unfold make_signed
    rw [hp]
    dsimp only
    rw [if_neg (by rw [hne]; simp), if_pos hex]

/-- C10 witness: both conflict cases at concrete inputs. -/
theorem C10_conflict_witness :
    make_signed (fun _ => []) (fun _ => []) [] false none (fun _ => false) [] none =
      ([], some MakeErr.noOutput) ∧
    make_signed (fun _ => []) (fun _ => []) [] false (some (cs ("out.zip")))
        (fun _ => true) [] none =
      ([], some (MakeErr.alreadyExists (cs ("out.zip")))) := by
  constructor
  · exact (C10_conflict_refusal (fun _ => []) (fun _ => []) [] false none
      (fun _ => false) [] none).1 rfl
  · exact (C10_conflict_refusal (fun _ => []) (fun _ => []) [] false
      (some (cs ("out.zip"))) (fun _ => true) [] none).2 (cs ("out.zip")) rfl rfl rfl

end SigningClients
